import Mathlib

/-!
Verification development for the gh-stars-sink repository.

The relational core of the program is the D1/SQLite schema in
src/migrations/0000_initial.sql: tables repos, stars, embeddings, repo_ai,
repo_fts (an fts5 mirror), sync_jobs, ai_tags, repo_ai_tags, together with
the triggers that keep the mirror, the last_synced_at column and the
sync-job duration column up to date.  This file shallowly embeds that
schema: each table becomes a list of row records, and each SQL statement
that the application can issue becomes a Lean function on the database
state; a statement aborted by a constraint or by RAISE(ABORT) returns
Except.error and therefore leaves the state unchanged.

Timestamps local to the database are modelled abstractly: TEXT timestamps
written by strftime on repos/embeddings rows are clock ticks (Nat), and
sync_jobs timestamps are julian-day numbers (Rat), because the
tr_sync_jobs_duration trigger computes with julianday().  Timestamps copied
verbatim from the GitHub payload stay uninterpreted strings.

The SQLite builtin json_valid is kept as an explicit parameter
(jv : String -> Bool) of the operations whose triggers call it.
-/

-- Equality of statement outcomes is decidable, so concrete runs can be
-- checked by evaluation.
deriving instance DecidableEq for Except

/-- Status values allowed by the CHECK constraint on sync_jobs.status
(migration line: status TEXT NOT NULL CHECK (status IN ('started','completed','error'))). -/
inductive JobStatus where
  | started
  | completed
  | error
deriving DecidableEq

/-- Row of the repos table (migration: CREATE TABLE repos).  Column types
follow the schema: nullable TEXT columns become Option String, the four
flag columns with CHECK (x IN (0,1)) become Bool, counters become Nat.
last_synced_at is a local clock tick (Nat). -/
structure RepoRow where
  id : Nat
  owner_login : String
  name : String
  full_name : String
  html_url : String
  description : Option String
  language : Option String
  stargazers_count : Nat
  forks_count : Nat
  watchers_count : Nat
  open_issues_count : Nat
  created_at_gh : String
  updated_at_gh : String
  pushed_at_gh : Option String
  is_fork : Bool
  is_private : Bool
  archived : Bool
  disabled : Bool
  default_branch : Option String
  topics_json : Option String
  license_key : Option String
  license_name : Option String
  readme_sha : Option String
  last_synced_at : Nat
  raw_data_json : Option String
deriving DecidableEq

/-- Row of the stars table (one-to-one snapshot of the latest star). -/
structure StarRow where
  repo_id : Nat
  starred_at : String
deriving DecidableEq

/-- Row of the embeddings table.  id is the text key
"repo_id:source:chunk_idx" built by the writer; created_at is a local
clock tick. -/
structure EmbeddingRow where
  id : String
  repo_id : Nat
  source : String
  chunk_idx : Nat
  text : String
  dim : Nat
  text_hash : String
  created_at : Nat
deriving DecidableEq

/-- Row of the repo_ai table (at most one AI summary per repository). -/
structure RepoAiRow where
  repo_id : Nat
  ai_description : Option String
  last_indexed_at : Nat
deriving DecidableEq

/-- Entry of the repo_fts virtual table (fts5, content='').  The rowid is
the repository id; the four indexed columns may hold NULL, hence Option.
The contentless fts5 table enforces no uniqueness on rowid, so the store
is a plain list of entries. -/
structure FtsRow where
  rowid : Nat
  full_name : Option String
  description : Option String
  topics : Option String
  ai_description : Option String
deriving DecidableEq

/-- Row of the sync_jobs table.  started_at / completed_at are julian-day
numbers (Rat), matching the julianday() arithmetic of the
tr_sync_jobs_duration trigger. -/
structure SyncJobRow where
  id : String
  triggered_by : Option String
  status : JobStatus
  started_at : Rat
  completed_at : Option Rat
  duration_seconds : Option Rat
  repos_processed : Nat
  vectors_upserted : Nat
  error : Option String
deriving DecidableEq

/-- Row of the ai_tags table (tag_name is UNIQUE COLLATE NOCASE). -/
structure AiTagRow where
  id : Nat
  tag_name : String
deriving DecidableEq

/-- Row of the repo_ai_tags join table (PRIMARY KEY (repo_id, tag_id)). -/
structure RepoAiTagRow where
  repo_id : Nat
  tag_id : Nat
deriving DecidableEq

/-- Whole database state: one list per table of the migration. -/
structure DB where
  repos : List RepoRow
  stars : List StarRow
  embeddings : List EmbeddingRow
  repo_ai : List RepoAiRow
  repo_fts : List FtsRow
  sync_jobs : List SyncJobRow
  ai_tags : List AiTagRow
  repo_ai_tags : List RepoAiTagRow
deriving DecidableEq

/-- State right after the migration runs: every table is empty. -/
def emptyDB : DB := ⟨[], [], [], [], [], [], [], []⟩

/-- SQLite's lower() folds only the ASCII range A-Z; Char.toLower does
exactly that, so the unique index ux_repos_full_name_nocase on
lower(full_name) is modelled with this function. -/
def asciiLower (s : String) : String := String.mk (s.data.map Char.toLower)

/-- Lookup of a repos row by id (the SELECT ... FROM repos WHERE id = ?
subqueries of the fts triggers). -/
def repoById (db : DB) (i : Nat) : Option RepoRow :=
  db.repos.find? (fun r => r.id == i)

/-- Value of (SELECT ai_description FROM repo_ai WHERE repo_id = i):
NULL both when the row is absent and when its ai_description is NULL. -/
def aiSummary (db : DB) (i : Nat) : Option String :=
  (db.repo_ai.find? (fun a => a.repo_id == i)).bind (fun a => a.ai_description)

/-- Constraint checks and row write shared by the two branches of the
topics_json validity trigger on INSERT INTO repos. -/
def insertRepoChecked (db : DB) (r : RepoRow) : Except String DB :=
  if db.repos.any (fun o => o.id == r.id) then
    Except.error "UNIQUE constraint failed: repos.id"
  else if db.repos.any (fun o => asciiLower o.full_name == asciiLower r.full_name) then
    Except.error "UNIQUE constraint failed: index ux_repos_full_name_nocase"
  else
    Except.ok
      { db with
        repos := db.repos ++ [r]
        repo_fts :=
          if db.repo_fts.any (fun e => e.rowid == r.id) then db.repo_fts
          else db.repo_fts ++
            [⟨r.id, some r.full_name, r.description, r.topics_json, aiSummary db r.id⟩] }

/-- INSERT INTO repos, with the BEFORE INSERT trigger
tr_repos_topics_json_ins (RAISE ABORT when topics_json is non-NULL and not
valid JSON), the INTEGER PRIMARY KEY check on id, the unique index
ux_repos_full_name_nocase on lower(full_name), and the AFTER INSERT
trigger tr_repos_to_fts_ins (INSERT OR IGNORE of the mirror entry, its
ai_description filled from repo_ai). -/
def insertRepo (jv : String → Bool) (db : DB) (r : RepoRow) : Except String DB :=
  match r.topics_json with
  | some t =>
    if jv t then insertRepoChecked db r else Except.error "topics_json must be valid JSON"
  | none => insertRepoChecked db r

/-- SET clause of an UPDATE on repos: a field is assigned exactly when the
corresponding component is some; nullable columns may be assigned NULL
(some none).  The id (rowid) column is never reassigned by the
application, and last_synced_at is owned by its trigger. -/
structure RepoPatch where
  owner_login : Option String := none
  name : Option String := none
  full_name : Option String := none
  html_url : Option String := none
  description : Option (Option String) := none
  language : Option (Option String) := none
  stargazers_count : Option Nat := none
  forks_count : Option Nat := none
  watchers_count : Option Nat := none
  open_issues_count : Option Nat := none
  created_at_gh : Option String := none
  updated_at_gh : Option String := none
  pushed_at_gh : Option (Option String) := none
  is_fork : Option Bool := none
  is_private : Option Bool := none
  archived : Option Bool := none
  disabled : Option Bool := none
  default_branch : Option (Option String) := none
  topics_json : Option (Option String) := none
  license_key : Option (Option String) := none
  license_name : Option (Option String) := none
  readme_sha : Option (Option String) := none
  raw_data_json : Option (Option String) := none
deriving DecidableEq

/-- Application of a SET clause to a repos row. -/
def applyRepoPatch (r : RepoRow) (p : RepoPatch) : RepoRow :=
  { r with
    owner_login := p.owner_login.getD r.owner_login
    name := p.name.getD r.name
    full_name := p.full_name.getD r.full_name
    html_url := p.html_url.getD r.html_url
    description := p.description.getD r.description
    language := p.language.getD r.language
    stargazers_count := p.stargazers_count.getD r.stargazers_count
    forks_count := p.forks_count.getD r.forks_count
    watchers_count := p.watchers_count.getD r.watchers_count
    open_issues_count := p.open_issues_count.getD r.open_issues_count
    created_at_gh := p.created_at_gh.getD r.created_at_gh
    updated_at_gh := p.updated_at_gh.getD r.updated_at_gh
    pushed_at_gh := p.pushed_at_gh.getD r.pushed_at_gh
    is_fork := p.is_fork.getD r.is_fork
    is_private := p.is_private.getD r.is_private
    archived := p.archived.getD r.archived
    disabled := p.disabled.getD r.disabled
    default_branch := p.default_branch.getD r.default_branch
    topics_json := p.topics_json.getD r.topics_json
    license_key := p.license_key.getD r.license_key
    license_name := p.license_name.getD r.license_name
    readme_sha := p.readme_sha.getD r.readme_sha
    raw_data_json := p.raw_data_json.getD r.raw_data_json }

/-- Write phase of UPDATE repos ... WHERE id = i once the BEFORE trigger
passed: re-check of the unique index when full_name is assigned, the row
update, the AFTER UPDATE OF full_name, description, topics_json trigger
tr_repos_to_fts_upd rewriting the mirror entry, and the AFTER UPDATE
trigger tr_repos_touch_last_synced setting last_synced_at to now (its
inner UPDATE fires no further triggers: recursive_triggers is off). -/
def updateRepoChecked (now : Nat) (db : DB) (i : Nat) (r : RepoRow) (p : RepoPatch) :
    Except String DB :=
  let r' := applyRepoPatch r p
  if p.full_name.isSome &&
      db.repos.any (fun o => !(o.id == i) && (asciiLower o.full_name == asciiLower r'.full_name)) then
    Except.error "UNIQUE constraint failed: index ux_repos_full_name_nocase"
  else
    Except.ok
      { db with
        repos := db.repos.map (fun o =>
          if o.id == i then { r' with last_synced_at := now } else o)
        repo_fts :=
          if p.full_name.isSome || p.description.isSome || p.topics_json.isSome then
            db.repo_fts.map (fun e =>
              if e.rowid == i then
                { e with
                  full_name := some r'.full_name
                  description := r'.description
                  topics := r'.topics_json }
              else e)
          else db.repo_fts }

/-- UPDATE repos SET ... WHERE id = i.  A statement matching no row does
nothing; otherwise the BEFORE UPDATE OF topics_json trigger
tr_repos_topics_json_upd aborts on invalid JSON before any write. -/
def updateRepo (jv : String → Bool) (now : Nat) (db : DB) (i : Nat) (p : RepoPatch) :
    Except String DB :=
  match db.repos.find? (fun o => o.id == i) with
  | none => Except.ok db
  | some r =>
    match p.topics_json with
    | some (some t) =>
      if jv t then updateRepoChecked now db i r p
      else Except.error "topics_json must be valid JSON"
    | _ => updateRepoChecked now db i r p

/-- DELETE FROM repos WHERE id = i.  The ON DELETE CASCADE foreign keys
remove the stars, embeddings, repo_ai and repo_ai_tags rows of the
repository; the cascade on repo_ai fires tr_repos_ai_del and the AFTER
DELETE trigger tr_repos_to_fts_del also runs, both deleting the mirror
entries with that rowid. -/
def deleteRepo (db : DB) (i : Nat) : DB :=
  if db.repos.any (fun o => o.id == i) then
    { db with
      repos := db.repos.filter (fun o => !(o.id == i))
      stars := db.stars.filter (fun s => !(s.repo_id == i))
      embeddings := db.embeddings.filter (fun e => !(e.repo_id == i))
      repo_ai := db.repo_ai.filter (fun a => !(a.repo_id == i))
      repo_fts := db.repo_fts.filter (fun e => !(e.rowid == i))
      repo_ai_tags := db.repo_ai_tags.filter (fun t => !(t.repo_id == i)) }
  else db

/-- INSERT INTO repo_ai, with the foreign key to repos, the primary key on
repo_id, and the AFTER INSERT trigger tr_repos_ai_ins: a plain INSERT into
repo_fts whose full_name/description/topics come from subqueries on repos
(NULL when no row matches).  The contentless fts5 table does not enforce
rowid uniqueness, so the entry is appended even when the repository's
mirror entry already exists. -/
def insertAi (db : DB) (a : RepoAiRow) : Except String DB :=
  if !(db.repos.any (fun r => r.id == a.repo_id)) then
    Except.error "FOREIGN KEY constraint failed"
  else if db.repo_ai.any (fun o => o.repo_id == a.repo_id) then
    Except.error "UNIQUE constraint failed: repo_ai.repo_id"
  else
    Except.ok
      { db with
        repo_ai := db.repo_ai ++ [a]
        repo_fts := db.repo_fts ++
          [⟨a.repo_id,
            (repoById db a.repo_id).map (fun r => r.full_name),
            (repoById db a.repo_id).bind (fun r => r.description),
            (repoById db a.repo_id).bind (fun r => r.topics_json),
            a.ai_description⟩] }

/-- UPDATE repo_ai SET ai_description = v, last_indexed_at = now WHERE
repo_id = i, with the AFTER UPDATE trigger tr_repos_ai_upd overwriting
every mirror entry of that rowid from the current repos row and the new
summary. -/
def updateAi (db : DB) (i : Nat) (v : Option String) (now : Nat) : DB :=
  if db.repo_ai.any (fun a => a.repo_id == i) then
    { db with
      repo_ai := db.repo_ai.map (fun a =>
        if a.repo_id == i then { a with ai_description := v, last_indexed_at := now } else a)
      repo_fts := db.repo_fts.map (fun e =>
        if e.rowid == i then
          ⟨i,
           (repoById db i).map (fun r => r.full_name),
           (repoById db i).bind (fun r => r.description),
           (repoById db i).bind (fun r => r.topics_json),
           v⟩
        else e) }
  else db

/-- DELETE FROM repo_ai WHERE repo_id = i, with the AFTER DELETE trigger
tr_repos_ai_del: DELETE FROM repo_fts WHERE rowid = OLD.repo_id — the
whole mirror entry goes away, not only its annotation column. -/
def deleteAi (db : DB) (i : Nat) : DB :=
  if db.repo_ai.any (fun a => a.repo_id == i) then
    { db with
      repo_ai := db.repo_ai.filter (fun a => !(a.repo_id == i))
      repo_fts := db.repo_fts.filter (fun e => !(e.rowid == i)) }
  else db

/-- INSERT INTO embeddings, with the CHECK constraint
source IN ('readme','desc','topics','about'), the TEXT primary key, the
unique index idx_embeddings_repo_src_chunk on (repo_id, source, chunk_idx)
and the foreign key to repos. -/
def insertEmbedding (db : DB) (e : EmbeddingRow) : Except String DB :=
  if !(e.source == "readme" || e.source == "desc" || e.source == "topics" || e.source == "about") then
    Except.error "CHECK constraint failed: source"
  else if db.embeddings.any (fun o => o.id == e.id) then
    Except.error "UNIQUE constraint failed: embeddings.id"
  else if db.embeddings.any (fun o =>
      o.repo_id == e.repo_id && o.source == e.source && o.chunk_idx == e.chunk_idx) then
    Except.error "UNIQUE constraint failed: index idx_embeddings_repo_src_chunk"
  else if !(db.repos.any (fun r => r.id == e.repo_id)) then
    Except.error "FOREIGN KEY constraint failed"
  else
    Except.ok { db with embeddings := db.embeddings ++ [e] }

/-- INSERT OR REPLACE INTO stars: the star snapshot is overwritten, not
appended (stars has PRIMARY KEY repo_id); the foreign key to repos is
checked first. -/
def upsertStar (db : DB) (s : StarRow) : Except String DB :=
  if !(db.repos.any (fun r => r.id == s.repo_id)) then
    Except.error "FOREIGN KEY constraint failed"
  else if db.stars.any (fun o => o.repo_id == s.repo_id) then
    Except.ok { db with stars := db.stars.map (fun o => if o.repo_id == s.repo_id then s else o) }
  else
    Except.ok { db with stars := db.stars ++ [s] }

/-- INSERT INTO ai_tags, with the UNIQUE COLLATE NOCASE constraint on
tag_name and the integer primary key. -/
def insertTag (db : DB) (t : AiTagRow) : Except String DB :=
  if db.ai_tags.any (fun o => asciiLower o.tag_name == asciiLower t.tag_name) then
    Except.error "UNIQUE constraint failed: ai_tags.tag_name"
  else if db.ai_tags.any (fun o => o.id == t.id) then
    Except.error "UNIQUE constraint failed: ai_tags.id"
  else
    Except.ok { db with ai_tags := db.ai_tags ++ [t] }

/-- INSERT INTO repo_ai_tags, with both foreign keys and the composite
primary key (repo_id, tag_id). -/
def insertRepoAiTag (db : DB) (t : RepoAiTagRow) : Except String DB :=
  if !(db.repos.any (fun r => r.id == t.repo_id)) then
    Except.error "FOREIGN KEY constraint failed"
  else if !(db.ai_tags.any (fun o => o.id == t.tag_id)) then
    Except.error "FOREIGN KEY constraint failed"
  else if db.repo_ai_tags.any (fun o => o.repo_id == t.repo_id && o.tag_id == t.tag_id) then
    Except.error "UNIQUE constraint failed: repo_ai_tags"
  else
    Except.ok { db with repo_ai_tags := db.repo_ai_tags ++ [t] }

/-- Modelled from the spec: the Sync Job Tracker's open(triggeredBy)
(section 4.4) — no writer of sync_jobs exists under src (the worker's
handlers are stubs), so the row is inserted with the schema's DEFAULT
values: status 'started', started_at = now, completed_at, duration and
error NULL, counters 0. -/
def openJob (db : DB) (i : String) (trig : Option String) (now : Rat) : Except String DB :=
  if db.sync_jobs.any (fun j => j.id == i) then
    Except.error "UNIQUE constraint failed: sync_jobs.id"
  else
    Except.ok { db with sync_jobs := db.sync_jobs ++ [⟨i, trig, JobStatus.started, now, none, none, 0, 0, none⟩] }

/-- SET clause of an UPDATE on sync_jobs.  Following the spec (duration is
computed, not supplied; started_at is fixed at open), writers never assign
duration_seconds or started_at, so the patch has no component for them. -/
structure JobPatch where
  triggered_by : Option (Option String) := none
  status : Option JobStatus := none
  completed_at : Option (Option Rat) := none
  repos_processed : Option Nat := none
  vectors_upserted : Option Nat := none
  error : Option (Option String) := none
deriving DecidableEq

/-- Application of a SET clause to a sync_jobs row. -/
def applyJobPatch (j : SyncJobRow) (p : JobPatch) : SyncJobRow :=
  { j with
    triggered_by := p.triggered_by.getD j.triggered_by
    status := p.status.getD j.status
    completed_at := p.completed_at.getD j.completed_at
    repos_processed := p.repos_processed.getD j.repos_processed
    vectors_upserted := p.vectors_upserted.getD j.vectors_upserted
    error := p.error.getD j.error }

/-- UPDATE sync_jobs ... WHERE id = i, with the trigger
tr_sync_jobs_duration: AFTER UPDATE OF completed_at, WHEN NEW.completed_at
IS NOT NULL, it sets duration_seconds to
(julianday(NEW.completed_at) - julianday(NEW.started_at)) * 86400.0. -/
def updateJob (db : DB) (i : String) (p : JobPatch) : DB :=
  { db with
    sync_jobs := db.sync_jobs.map (fun j =>
      if j.id == i then
        match p.completed_at with
        | some (some c) =>
          { applyJobPatch j p with duration_seconds := some ((c - j.started_at) * 86400) }
        | _ => applyJobPatch j p
      else j) }

/-- Modelled from the spec: close(jobId, status, counters, error?) of the
Sync Job Tracker (section 4.4) — one UPDATE setting the terminal status,
the completion timestamp, the final counters and the error message, whose
completed_at assignment fires the duration trigger. -/
def closeJob (db : DB) (i : String) (st : JobStatus) (c : Rat) (rp vu : Nat)
    (err : Option String) : DB :=
  updateJob db i
    { status := some st, completed_at := some (some c),
      repos_processed := some rp, vectors_upserted := some vu, error := some err }

/-- One database transition: any single SQL statement the application can
issue against the schema, as embedded above.  Fallible statements step
only when they commit (Except.ok); sync_jobs updates are the ones the
spec's tracker issues (close, and field updates that do not assign
completed_at). -/
inductive DbStep : DB → DB → Prop where
  | repo_ins : ∀ jv db r db', insertRepo jv db r = Except.ok db' → DbStep db db'
  | repo_upd : ∀ jv now db i p db', updateRepo jv now db i p = Except.ok db' → DbStep db db'
  | repo_del : ∀ db i, DbStep db (deleteRepo db i)
  | ai_ins : ∀ db a db', insertAi db a = Except.ok db' → DbStep db db'
  | ai_upd : ∀ db i v now, DbStep db (updateAi db i v now)
  | ai_del : ∀ db i, DbStep db (deleteAi db i)
  | emb_ins : ∀ db e db', insertEmbedding db e = Except.ok db' → DbStep db db'
  | star_ups : ∀ db s db', upsertStar db s = Except.ok db' → DbStep db db'
  | tag_ins : ∀ db t db', insertTag db t = Except.ok db' → DbStep db db'
  | repo_tag_ins : ∀ db t db', insertRepoAiTag db t = Except.ok db' → DbStep db db'
  | job_open : ∀ db i trig now db', openJob db i trig now = Except.ok db' → DbStep db db'
  | job_close : ∀ db i st c rp vu err, st ≠ JobStatus.started →
      DbStep db (closeJob db i st c rp vu err)
  | job_meta : ∀ db i p, p.completed_at = none → p.status = none →
      DbStep db (updateJob db i p)

/-- Database states reachable from the freshly migrated (empty) database
by committed statements. -/
inductive DbReachable : DB → Prop where
  | base : DbReachable emptyDB
  | step : ∀ db db', DbReachable db → DbStep db db' → DbReachable db'

/-- Transition restricted to mutations of the repos table alone (no
repo_ai statements, and none of the statements that leave repos and
repo_fts untouched matter for the mirror). -/
inductive RepoStep : DB → DB → Prop where
  | ins : ∀ jv db r db', insertRepo jv db r = Except.ok db' → RepoStep db db'
  | upd : ∀ jv now db i p db', updateRepo jv now db i p = Except.ok db' → RepoStep db db'
  | del : ∀ db i, RepoStep db (deleteRepo db i)

/-- States reachable from the empty database by repos-table mutations
alone. -/
inductive RepoReachable : DB → Prop where
  | base : RepoReachable emptyDB
  | step : ∀ db db', RepoReachable db → RepoStep db db' → RepoReachable db'

/-- Mirror entry a repos row should have according to the spec's
invariant, when the repository has no annotation. -/
def mirrorPure (r : RepoRow) : FtsRow :=
  ⟨r.id, some r.full_name, r.description, r.topics_json, none⟩

/-- Mirror entry a repos row should have according to the spec's
invariant: current full name / description / topics, annotation equal to
the current repo_ai summary (absent when there is none). -/
def mirrorOf (db : DB) (r : RepoRow) : FtsRow :=
  ⟨r.id, some r.full_name, r.description, r.topics_json, aiSummary db r.id⟩

/-- Search-mirror consistency: every repos row has exactly one mirror
entry under its rowid, and that entry carries the row's current full
name, description and topics together with the current annotation. -/
def mirrorOk (db : DB) : Bool :=
  db.repos.all (fun r =>
    decide (db.repo_fts.filter (fun e => e.rowid == r.id) = [mirrorOf db r]))

/-- Modelled from the spec: a RepositoryPayload handed to the (missing)
Sync Orchestrator — the queue consumer in src/src/index.ts is a stub that
only logs, so the ingestion payload is taken from sections 3, 4.1 and 8 of
the spec: identity, the catalog fields, the four embeddable source texts
(readme, description, topics, about) and the starred-at timestamp. -/
structure Payload where
  id : Nat
  owner_login : String
  name : String
  full_name : String
  html_url : String
  description : Option String
  language : Option String
  topics_json : Option String
  about : Option String
  readme : Option String
  created_at_gh : String
  updated_at_gh : String
  starred_at : String
deriving DecidableEq

/-- Repos row first written for a payload: catalog fields from the
payload, readme_sha the fingerprint of the readme, last_synced_at the
current clock (the column DEFAULT). -/
def rowFrom (hasher : String → String) (now : Nat) (p : Payload) : RepoRow :=
  { id := p.id
    owner_login := p.owner_login
    name := p.name
    full_name := p.full_name
    html_url := p.html_url
    description := p.description
    language := p.language
    stargazers_count := 0
    forks_count := 0
    watchers_count := 0
    open_issues_count := 0
    created_at_gh := p.created_at_gh
    updated_at_gh := p.updated_at_gh
    pushed_at_gh := none
    is_fork := false
    is_private := false
    archived := false
    disabled := false
    default_branch := none
    topics_json := p.topics_json
    license_key := none
    license_name := none
    readme_sha := p.readme.map hasher
    last_synced_at := now
    raw_data_json := none }

/-- SET clause of the orchestrator's re-sync UPDATE: every mutable catalog
field is assigned from the payload (the spec's full upsert,
last-write-wins on all mutable fields). -/
def patchFrom (hasher : String → String) (p : Payload) : RepoPatch :=
  { owner_login := some p.owner_login
    name := some p.name
    full_name := some p.full_name
    html_url := some p.html_url
    description := some p.description
    language := some p.language
    created_at_gh := some p.created_at_gh
    updated_at_gh := some p.updated_at_gh
    topics_json := some p.topics_json
    readme_sha := some (p.readme.map hasher) }

/-- Chunks of one source field: the Text Chunker runs on the present text,
an absent field has no chunks. -/
def chunksOf (chunker : String → List String) (t : Option String) : List String :=
  match t with
  | none => []
  | some s => chunker s

/-- Chunk list paired with chunk indices starting at k. -/
def idxFrom (k : Nat) : List String → List (Nat × String)
  | [] => []
  | c :: cs => (k, c) :: idxFrom (k + 1) cs

/-- Key predicate of the unique index idx_embeddings_repo_src_chunk. -/
def embKey (rid : Nat) (src : String) (i : Nat) (e : EmbeddingRow) : Bool :=
  e.repo_id == rid && e.source == src && e.chunk_idx == i

/-- Embeddings row written for one chunk: id is the documented
"repo_id:source:chunk_idx" key, text_hash the chunk fingerprint,
created_at the clock at write time. -/
def mkEmb (hasher : String → String) (dim : Nat) (now : Nat) (rid : Nat) (src : String)
    (i : Nat) (c : String) : EmbeddingRow :=
  ⟨toString rid ++ ":" ++ src ++ ":" ++ toString i, rid, src, i, c, dim, hasher c, now⟩

/-- Modelled from the spec: the Embedding Deduplicator's per-chunk policy
(section 4.2) — a chunk is rewritten only if no row exists for its
(repository, source, index) key or the stored fingerprint differs;
unchanged chunks are left untouched, their creation timestamp
preserved. -/
def upsertChunk (hasher : String → String) (dim now : Nat) (rid : Nat) (src : String)
    (embs : List EmbeddingRow) (ic : Nat × String) : List EmbeddingRow :=
  match embs.find? (embKey rid src ic.1) with
  | some e =>
    if e.text_hash == hasher ic.2 then embs
    else embs.map (fun o =>
      if embKey rid src ic.1 o then mkEmb hasher dim now rid src ic.1 ic.2 else o)
  | none => embs ++ [mkEmb hasher dim now rid src ic.1 ic.2]

/-- Modelled from the spec: reconciliation of one source field's chunks
(section 4.2) — orphaned rows with chunk_idx at or beyond the new chunk
count are removed, then every chunk is upserted with the dedup policy. -/
def reconcileSource (chunker : String → List String) (hasher : String → String)
    (dim now : Nat) (db : DB) (rid : Nat) (src : String) (t : Option String) : DB :=
  let cs := chunksOf chunker t
  { db with
    embeddings :=
      (idxFrom 0 cs).foldl (upsertChunk hasher dim now rid src)
        (db.embeddings.filter (fun e =>
          !(e.repo_id == rid && e.source == src && Nat.ble cs.length e.chunk_idx))) }

/-- Source fields of a payload, with the source tags of the embeddings
CHECK constraint: readme, desc, topics, about. -/
def sourceList (p : Payload) : List (String × Option String) :=
  [("readme", p.readme), ("desc", p.description), ("topics", p.topics_json), ("about", p.about)]

/-- Modelled from the spec: per-repository unit of the Sync Orchestrator
(section 4.1) — upsert the catalog row (insert when the identifier is
unseen, else update all mutable fields, which fires the last_synced_at
touch trigger embedded in updateRepo), overwrite the star snapshot, then
reconcile the embeddings of every source field; the per-chunk fingerprint
check of reconcileSource subsumes the readme_sha short-cut. -/
def syncRepo (chunker : String → List String) (hasher : String → String)
    (dim : Nat) (jv : String → Bool) (now : Nat) (db : DB) (p : Payload) :
    Except String DB := do
  let db1 ←
    if db.repos.any (fun r => r.id == p.id) then
      updateRepo jv now db p.id (patchFrom hasher p)
    else
      insertRepo jv db (rowFrom hasher now p)
  let db2 ← upsertStar db1 ⟨p.id, p.starred_at⟩
  Except.ok ((sourceList p).foldl
    (fun d sc => reconcileSource chunker hasher dim now d p.id sc.1 sc.2) db2)

/-- Modelled from the spec: a batch run of the Sync Orchestrator
(section 4.1) — payloads are processed in order; an item that fails is
skipped and the batch continues (per-item atomicity, no batch-level
rollback). -/
def syncBatch (chunker : String → List String) (hasher : String → String)
    (dim : Nat) (jv : String → Bool) (now : Nat) (db : DB) (ps : List Payload) : DB :=
  ps.foldl (fun d p =>
    match syncRepo chunker hasher dim jv now d p with
    | Except.ok d' => d'
    | Except.error _ => d) db

/-- Substring occurrence test used as the lexical match of the modelled
search: splitting on a non-empty pattern yields more than one piece
exactly when the pattern occurs. -/
def strContains (pat s : String) : Bool :=
  (s.splitOn pat).length != 1

/-- Whether a mirror entry matches a query lexically: the query occurs in
one of the indexed columns (case-folded the way the porter tokenizer
folds ASCII). -/
def entryMatches (q : String) (e : FtsRow) : Bool :=
  strContains (asciiLower q) (asciiLower (e.full_name.getD "")) ||
  strContains (asciiLower q) (asciiLower (e.description.getD "")) ||
  strContains (asciiLower q) (asciiLower (e.topics.getD "")) ||
  strContains (asciiLower q) (asciiLower (e.ai_description.getD ""))

/-- Modelled from the spec: the lexical query interface over the Search
Mirror (section 6) — the /search handler in src/src/index.ts is a stub
whose comments say to replace it, so the interface is taken from the
spec: all matching mirror entries, ordered by a relevance score, each
result carrying the repository identifier (rowid) and the mirror
fields. -/
def searchMirror (score : FtsRow → Int) (db : DB) (q : String) : List FtsRow :=
  (db.repo_fts.filter (entryMatches q)).insertionSort (fun a b => score b ≤ score a)

/-- Worker environment bindings (interface Env of src/src/index.ts): the
D1 database and the KV / R2 / Vectorize stores, each modelled as the data
it persists. -/
structure WorkerEnv where
  db : DB
  terms : List (String × String)
  inbox : List (String × String)
  vec : List (String × List Int)
deriving DecidableEq

/-- Queue consumer of src/src/index.ts (and src/unnamed/part_000): for
each message of the batch it only calls console.log('queue message',
msg.body); the log lines are returned alongside the untouched
environment. -/
def queueConsumer (env : WorkerEnv) (batch : List String) : WorkerEnv × List (String × String) :=
  (env, batch.map (fun b => ("queue message", b)))

/-- Search route handler of src/src/index.ts: app.openapi(searchRoute, ...)
returns the single string result built from the query. -/
def searchHandler (q : String) : List String :=
  ["stub result for " ++ q]

/-- Elimination form of a committed INSERT INTO repos after the topics
trigger: both uniqueness guards were false and the new state is the
appended row together with its mirror entry. -/
theorem insertRepoChecked_ok {db : DB} {r : RepoRow} {db' : DB}
    (h : insertRepoChecked db r = Except.ok db') :
    db.repos.any (fun o => o.id == r.id) = false ∧
    db.repos.any (fun o => asciiLower o.full_name == asciiLower r.full_name) = false ∧
    db' = { db with
      repos := db.repos ++ [r]
      repo_fts :=
        if db.repo_fts.any (fun e => e.rowid == r.id) then db.repo_fts
        else db.repo_fts ++
          [⟨r.id, some r.full_name, r.description, r.topics_json, aiSummary db r.id⟩] } := by
  cases h1 : db.repos.any (fun o => o.id == r.id) <;>
    cases h2 : db.repos.any (fun o => asciiLower o.full_name == asciiLower r.full_name) <;>
    simp [insertRepoChecked, h1, h2] at h <;> simp_all

/-- Elimination form of a committed INSERT INTO repos: the topics trigger
passed and the checked insert committed. -/
theorem insertRepo_ok {jv : String → Bool} {db : DB} {r : RepoRow} {db' : DB}
    (h : insertRepo jv db r = Except.ok db') :
    insertRepoChecked db r = Except.ok db' ∧ ∀ t, r.topics_json = some t → jv t = true := by
  cases ht : r.topics_json with
  | none => simpa [insertRepo, ht] using h
  | some t =>
    cases hj : jv t <;> simp [insertRepo, ht, hj] at h <;> simp_all

/-- Elimination form of a committed write phase of UPDATE repos: the
unique-index guard was false and the new state is the mapped tables. -/
theorem updateRepoChecked_ok {now : Nat} {db : DB} {i : Nat} {r : RepoRow} {p : RepoPatch}
    {db' : DB} (h : updateRepoChecked now db i r p = Except.ok db') :
    (p.full_name.isSome &&
      db.repos.any (fun o =>
        !(o.id == i) && (asciiLower o.full_name == asciiLower (applyRepoPatch r p).full_name)))
      = false ∧
    db' = { db with
      repos := db.repos.map (fun o =>
        if o.id == i then { applyRepoPatch r p with last_synced_at := now } else o)
      repo_fts :=
        if p.full_name.isSome || p.description.isSome || p.topics_json.isSome then
          db.repo_fts.map (fun e =>
            if e.rowid == i then
              { e with
                full_name := some (applyRepoPatch r p).full_name
                description := (applyRepoPatch r p).description
                topics := (applyRepoPatch r p).topics_json }
            else e)
        else db.repo_fts } := by
  cases h1 : (p.full_name.isSome &&
      db.repos.any (fun o =>
        !(o.id == i) && (asciiLower o.full_name == asciiLower (applyRepoPatch r p).full_name))) <;>
    simp [updateRepoChecked, h1] at h <;> simp_all

/-- Elimination form of a committed UPDATE repos: either no row matched
and nothing happened, or the found row passed the topics trigger and the
write phase committed. -/
theorem updateRepo_ok {jv : String → Bool} {now : Nat} {db : DB} {i : Nat} {p : RepoPatch}
    {db' : DB} (h : updateRepo jv now db i p = Except.ok db') :
    (db.repos.find? (fun o => o.id == i) = none ∧ db' = db) ∨
    ∃ r, db.repos.find? (fun o => o.id == i) = some r ∧
      updateRepoChecked now db i r p = Except.ok db' := by
  cases hf : db.repos.find? (fun o => o.id == i) with
  | none => simp [updateRepo, hf] at h; exact Or.inl ⟨rfl, h.symm⟩
  | some r =>
    refine Or.inr ⟨r, rfl, ?_⟩
    cases hp : p.topics_json with
    | none => simpa [updateRepo, hf, hp] using h
    | some t? =>
      cases t? with
      | none => simpa [updateRepo, hf, hp] using h
      | some t =>
        cases hj : jv t <;> simp [updateRepo, hf, hp, hj] at h
        simpa using h

/-- Elimination form of a committed INSERT INTO repo_ai. -/
theorem insertAi_ok {db : DB} {a : RepoAiRow} {db' : DB}
    (h : insertAi db a = Except.ok db') :
    db.repos.any (fun r => r.id == a.repo_id) = true ∧
    db.repo_ai.any (fun o => o.repo_id == a.repo_id) = false ∧
    db' = { db with
      repo_ai := db.repo_ai ++ [a]
      repo_fts := db.repo_fts ++
        [⟨a.repo_id,
          (repoById db a.repo_id).map (fun r => r.full_name),
          (repoById db a.repo_id).bind (fun r => r.description),
          (repoById db a.repo_id).bind (fun r => r.topics_json),
          a.ai_description⟩] } := by
  cases h1 : db.repos.any (fun r => r.id == a.repo_id) <;>
    cases h2 : db.repo_ai.any (fun o => o.repo_id == a.repo_id) <;>
    simp [insertAi, h1, h2] at h <;> simp_all

/-- Elimination form of a committed INSERT INTO embeddings. -/
theorem insertEmbedding_ok {db : DB} {e : EmbeddingRow} {db' : DB}
    (h : insertEmbedding db e = Except.ok db') :
    (e.source == "readme" || e.source == "desc" || e.source == "topics" || e.source == "about")
      = true ∧
    db.embeddings.any (fun o =>
      o.repo_id == e.repo_id && o.source == e.source && o.chunk_idx == e.chunk_idx) = false ∧
    db' = { db with embeddings := db.embeddings ++ [e] } := by
  cases h1 : (e.source == "readme" || e.source == "desc" || e.source == "topics" || e.source == "about") <;>
    cases h2 : db.embeddings.any (fun o => o.id == e.id) <;>
    cases h3 : db.embeddings.any (fun o =>
      o.repo_id == e.repo_id && o.source == e.source && o.chunk_idx == e.chunk_idx) <;>
    cases h4 : db.repos.any (fun r => r.id == e.repo_id) <;>
    simp [insertEmbedding, h1, h2, h3, h4] at h <;> simp_all

/-- Elimination form of a committed star upsert: only the stars table
changes. -/
theorem upsertStar_ok {db : DB} {s : StarRow} {db' : DB}
    (h : upsertStar db s = Except.ok db') :
    db' = { db with stars := db'.stars } := by
  cases h1 : db.repos.any (fun r => r.id == s.repo_id) <;>
    cases h2 : db.stars.any (fun o => o.repo_id == s.repo_id) <;>
    simp [upsertStar, h1, h2] at h <;> subst h <;> rfl

/-- Elimination form of a committed INSERT INTO ai_tags: only the ai_tags
table changes. -/
theorem insertTag_ok {db : DB} {t : AiTagRow} {db' : DB}
    (h : insertTag db t = Except.ok db') :
    db' = { db with ai_tags := db.ai_tags ++ [t] } := by
  cases h1 : db.ai_tags.any (fun o => asciiLower o.tag_name == asciiLower t.tag_name) <;>
    cases h2 : db.ai_tags.any (fun o => o.id == t.id) <;>
    simp [insertTag, h1, h2] at h <;> simp_all

/-- Elimination form of a committed INSERT INTO repo_ai_tags: only the
join table changes. -/
theorem insertRepoAiTag_ok {db : DB} {t : RepoAiTagRow} {db' : DB}
    (h : insertRepoAiTag db t = Except.ok db') :
    db' = { db with repo_ai_tags := db.repo_ai_tags ++ [t] } := by
  cases h1 : db.repos.any (fun r => r.id == t.repo_id) <;>
    cases h2 : db.ai_tags.any (fun o => o.id == t.tag_id) <;>
    cases h3 : db.repo_ai_tags.any (fun o => o.repo_id == t.repo_id && o.tag_id == t.tag_id) <;>
    simp [insertRepoAiTag, h1, h2, h3] at h <;> simp_all

/-- Elimination form of a committed sync-job open. -/
theorem openJob_ok {db : DB} {i : String} {trig : Option String} {now : Rat} {db' : DB}
    (h : openJob db i trig now = Except.ok db') :
    db' = { db with
      sync_jobs := db.sync_jobs ++ [⟨i, trig, JobStatus.started, now, none, none, 0, 0, none⟩] } := by
  cases h1 : db.sync_jobs.any (fun j => j.id == i) <;>
    simp [openJob, h1] at h <;> simp_all

/-- Strengthened induction invariant for repos-only reachability: no
annotation rows exist, repository ids are pairwise distinct (the INTEGER
PRIMARY KEY), and the mirror table is exactly the image of the repos
table under mirrorPure. -/
def RepoInv (db : DB) : Prop :=
  db.repo_ai = [] ∧ (db.repos.map (fun r => r.id)).Nodup ∧
  db.repo_fts = db.repos.map mirrorPure

/-- A committed INSERT INTO repos preserves the repos-only invariant. -/
theorem repoInv_insert {jv : String → Bool} {db : DB} {r : RepoRow} {db' : DB}
    (h : insertRepo jv db r = Except.ok db') (hI : RepoInv db) : RepoInv db' := by
  obtain ⟨hc, -⟩ := insertRepo_ok h
  obtain ⟨h1, h2, hdb⟩ := insertRepoChecked_ok hc
  obtain ⟨hAi, hNd, hFts⟩ := hI
  simp only [List.any_eq_false] at h1
  have hfresh : ∀ o ∈ db.repos, o.id ≠ r.id := by
    intro o ho
    have := h1 o ho
    simpa using this
  have hcond : db.repo_fts.any (fun e => e.rowid == r.id) = false := by
    rw [hFts]
    simp only [List.any_eq_false]
    intro e he
    obtain ⟨o, ho, rfl⟩ := List.mem_map.1 he
    simpa [mirrorPure] using hfresh o ho
  refine ⟨?_, ?_, ?_⟩
  · rw [hdb]; exact hAi
  · rw [hdb]
    simp only [List.map_append, List.map_cons, List.map_nil]
    exact hNd.append (List.nodup_singleton _)
      (by simpa [List.disjoint_singleton] using fun o ho => hfresh o ho)
  · rw [hdb]
    simp only [hcond, if_neg, Bool.false_eq_true, not_false_iff, if_false]
    rw [hFts, List.map_append]
    have : aiSummary db r.id = none := by
      unfold aiSummary; rw [hAi]; rfl
    simp [mirrorPure, this]

/-- Replacing the rows of a given id by a row of that same id does not
change the id column, so primary-key distinctness is preserved. -/
theorem nodup_map_id_update {l : List RepoRow} {i : Nat} {t : RepoRow}
    (ht : t.id = i) (h : (l.map (fun o => o.id)).Nodup) :
    ((l.map (fun o => if o.id == i then t else o)).map (fun o => o.id)).Nodup := by
  rw [List.map_map]
  have he : ∀ o ∈ l, ((fun o => o.id) ∘ fun o => if o.id == i then t else o) o = o.id := by
    intro o ho
    by_cases hoi : o.id = i
    · simp [Function.comp, hoi, ht]
    · simp [Function.comp, hoi]
  rw [List.map_congr_left he]
  exact h

/-- A committed UPDATE repos preserves the repos-only invariant. -/
theorem repoInv_update {jv : String → Bool} {now : Nat} {db : DB} {i : Nat} {p : RepoPatch}
    {db' : DB} (h : updateRepo jv now db i p = Except.ok db') (hI : RepoInv db) :
    RepoInv db' := by
  obtain ⟨hAi, hNd, hFts⟩ := hI
  rcases updateRepo_ok h with ⟨-, rfl⟩ | ⟨r, hfind, hc⟩
  · exact ⟨hAi, hNd, hFts⟩
  obtain ⟨-, hdb⟩ := updateRepoChecked_ok hc
  have hri : r.id = i := by simpa using List.find?_some hfind
  have hrmem : r ∈ db.repos := List.mem_of_find?_eq_some hfind
  have hrowsame : ∀ o ∈ db.repos, o.id = i →
      o = r := by
    intro o ho hoi
    exact List.inj_on_of_nodup_map hNd ho hrmem (by rw [hoi, hri])
  refine ⟨?_, ?_, ?_⟩
  · rw [hdb]; exact hAi
  · rw [hdb]
    exact nodup_map_id_update (by simp [applyRepoPatch, hri]) hNd
  · rw [hdb]
    by_cases hfire : (p.full_name.isSome || p.description.isSome || p.topics_json.isSome) = true
    · simp only [hfire, if_true, if_pos]
      rw [hFts, List.map_map, List.map_map]
      refine List.map_congr_left ?_
      intro o ho
      by_cases hoi : o.id = i
      · simp [Function.comp, mirrorPure, hoi, applyRepoPatch, hri]
      · simp [Function.comp, mirrorPure, hoi]
    · simp only [hfire, if_neg, if_false, Bool.false_eq_true, not_false_iff]
      rw [hFts, List.map_map]
      refine (List.map_congr_left ?_).symm
      intro o ho
      by_cases hoi : o.id = i
      · have hor : o = r := hrowsame o ho hoi
        have pf : p.full_name = none := by
          cases hv : p.full_name
          · rfl
          · exact absurd (by simp [hv]) hfire
        have pd : p.description = none := by
          cases hv : p.description
          · rfl
          · exact absurd (by simp [hv]) hfire
        have pt : p.topics_json = none := by
          cases hv : p.topics_json
          · rfl
          · exact absurd (by simp [hv]) hfire
        simp [Function.comp, mirrorPure, hoi, applyRepoPatch, hri, hor, pf, pd, pt]
      · simp [Function.comp, mirrorPure, hoi]

/-- DELETE FROM repos preserves the repos-only invariant. -/
theorem repoInv_delete {db : DB} {i : Nat} (hI : RepoInv db) : RepoInv (deleteRepo db i) := by
  obtain ⟨hAi, hNd, hFts⟩ := hI
  unfold deleteRepo
  by_cases hex : db.repos.any (fun o => o.id == i) = true
  · simp only [hex, if_true, if_pos]
    refine ⟨?_, ?_, ?_⟩
    · rw [hAi]; rfl
    · exact hNd.sublist ((db.repos.filter_sublist).map _)
    · rw [hFts, List.filter_map]
      congr 1
  · simp only [hex, if_neg, if_false, Bool.false_eq_true, not_false_iff]
    exact ⟨hAi, hNd, hFts⟩

/-- Every repos-only reachable state satisfies the strengthened
invariant. -/
theorem repoInv_reachable {db : DB} (h : RepoReachable db) : RepoInv db := by
  induction h with
  | base => exact ⟨rfl, List.nodup_nil, rfl⟩
  | step db db' hr hs ih =>
    cases hs with
    | ins jv d r d' hop => exact repoInv_insert hop ih
    | upd jv now d i p d' hop => exact repoInv_update hop ih
    | del d i => exact repoInv_delete ih

/-- With pairwise distinct ids, filtering the mirror image of a repos list
down to one row's rowid leaves exactly that row's mirror entry. -/
theorem filter_mirror_single {L : List RepoRow} (hNd : (L.map (fun r => r.id)).Nodup)
    {r : RepoRow} (hr : r ∈ L) :
    (L.map mirrorPure).filter (fun e => e.rowid == r.id) = [mirrorPure r] := by
  induction L with
  | nil => cases hr
  | cons a tl ih =>
    simp only [List.map_cons, List.nodup_cons, List.mem_map] at hNd
    obtain ⟨hani, htl⟩ := hNd
    rcases List.mem_cons.1 hr with rfl | hrtl
    · have hzero : (tl.map mirrorPure).filter (fun e => e.rowid == r.id) = [] := by
        rw [List.filter_eq_nil_iff]
        intro e he
        obtain ⟨o, ho, rfl⟩ := List.mem_map.1 he
        simp only [mirrorPure, beq_iff_eq]
        exact fun hoi => hani ⟨o, ho, hoi⟩
      simp [mirrorPure, hzero]
    · have hne : a.id ≠ r.id := by
        intro hcontra
        exact hani ⟨r, hrtl, hcontra.symm⟩
      simp only [List.map_cons, List.filter_cons]
      simp only [mirrorPure, beq_iff_eq, hne, if_false, decide_eq_true_eq]
      exact ih htl hrtl

/-- The strengthened invariant implies the spec's mirror-consistency
predicate. -/
theorem mirrorOk_of_repoInv {db : DB} (hI : RepoInv db) : mirrorOk db = true := by
  obtain ⟨hAi, hNd, hFts⟩ := hI
  unfold mirrorOk
  rw [List.all_eq_true]
  intro r hr
  rw [decide_eq_true_eq, hFts, filter_mirror_single hNd hr]
  have : aiSummary db r.id = none := by
    unfold aiSummary; rw [hAi]; rfl
  simp [mirrorOf, mirrorPure, this]

/-- C1 (amended).  After any sequence of committed repository-table
mutations alone (inserts, updates, deletes — no annotation statements),
every repositories row has exactly one repo_fts mirror entry, carrying the
row's current full name, description and topics and an absent annotation.
The original claim fails once annotation statements join in:
tr_repos_ai_ins appends a second mirror entry for an existing repository
instead of updating the one written at repository insert, and
tr_repos_ai_del deletes the repository's mirror entries outright (see the
counterexample), so the invariant does not survive annotation
mutations. -/
theorem C1_mirror_invariant_repo_ops (db : DB) (h : RepoReachable db) : mirrorOk db = true :=
  mirrorOk_of_repoInv (repoInv_reachable h)

/-- json_valid stand-in accepting every string; the counterexample rows
carry NULL topics, so its value never matters there. -/
def jvTrue : String → Bool := fun _ => true

/-- Repository row used by the concrete C1/C2 scenarios. -/
def cexRepo : RepoRow :=
  { id := 1
    owner_login := "octo"
    name := "widget"
    full_name := "octo/widget"
    html_url := "https://example.invalid/octo/widget"
    description := some "a widget"
    language := some "ts"
    stargazers_count := 0
    forks_count := 0
    watchers_count := 0
    open_issues_count := 0
    created_at_gh := "2025-01-01T00:00:00Z"
    updated_at_gh := "2025-01-02T00:00:00Z"
    pushed_at_gh := none
    is_fork := false
    is_private := false
    archived := false
    disabled := false
    default_branch := some "main"
    topics_json := none
    license_key := none
    license_name := none
    readme_sha := none
    last_synced_at := 0
    raw_data_json := none }

/-- State after inserting cexRepo into the fresh database. -/
def cexDB1 : DB :=
  { emptyDB with repos := [cexRepo], repo_fts := [mirrorPure cexRepo] }

/-- State after additionally inserting the annotation of repository 1. -/
def cexDB2 : DB :=
  { emptyDB with
    repos := [cexRepo]
    repo_ai := [⟨1, some "ai summary", 7⟩]
    repo_fts := [mirrorPure cexRepo,
      ⟨1, some "octo/widget", some "a widget", none, some "ai summary"⟩] }

/-- State after additionally deleting that annotation: the repository row
is still there, but its mirror entries are gone. -/
def cexDB3 : DB :=
  { emptyDB with repos := [cexRepo] }

/-- C1 (counterexample).  A committed repository insert, annotation insert
and annotation delete leave a state in which the repository row exists but
has no mirror entry at all, so the claimed invariant is false after that
commit. -/
theorem C1_mirror_invariant_cex :
    insertRepo jvTrue emptyDB cexRepo = Except.ok cexDB1 ∧
    insertAi cexDB1 ⟨1, some "ai summary", 7⟩ = Except.ok cexDB2 ∧
    deleteAi cexDB2 1 = cexDB3 ∧
    cexDB3.repos ≠ [] ∧
    mirrorOk cexDB3 = false := by
  refine ⟨by decide, by decide, by decide, by decide, by decide⟩

/-- Witness: the C1 (amended) invariant evaluated at the concrete state
reached by one committed repository insert. -/
theorem C1_mirror_invariant_repo_ops_witness : mirrorOk cexDB1 = true :=
  C1_mirror_invariant_repo_ops cexDB1
    (RepoReachable.step emptyDB cexDB1 RepoReachable.base
      (RepoStep.ins jvTrue emptyDB cexRepo cexDB1 (by decide)))

/-- C2 (counterexample).  In the state with repository 1 and its
annotation present, deleting the annotation leaves no mirror entry for
rowid 1 at all — the trigger tr_repos_ai_del deletes the mirror row
instead of clearing its annotation column, refuting the claim that the
row survives with its other fields unchanged. -/
theorem C2_annotation_delete_cex :
    cexDB2.repos ≠ [] ∧
    cexDB2.repo_ai.any (fun a => a.repo_id == 1) = true ∧
    cexDB2.repo_fts.filter (fun e => e.rowid == 1) ≠ [] ∧
    deleteAi cexDB2 1 = cexDB3 ∧
    cexDB3.repo_fts.filter (fun e => e.rowid == 1) = [] := by
  refine ⟨by decide, by decide, by decide, by decide, by decide⟩

/-- C2 (amended).  Deleting a repository's annotation while the
repository row still exists removes every mirror entry of that rowid
(tr_repos_ai_del issues DELETE FROM repo_fts WHERE rowid = OLD.repo_id);
the repositories table itself and the mirror entries of other rowids are
untouched. -/
theorem C2_annotation_delete_amended (db : DB) (i : Nat)
    (h : db.repo_ai.any (fun a => a.repo_id == i) = true) :
    (deleteAi db i).repos = db.repos ∧
    (deleteAi db i).repo_fts.filter (fun e => e.rowid == i) = [] ∧
    (deleteAi db i).repo_fts = db.repo_fts.filter (fun e => !(e.rowid == i)) := by
  refine ⟨?_, ?_, ?_⟩
  · unfold deleteAi; simp [h]
  · unfold deleteAi
    simp only [h, if_true, if_pos]
    rw [List.filter_eq_nil_iff]
    intro e he
    have := (List.mem_filter.1 he).2
    simpa using this
  · unfold deleteAi; simp [h]

/-- Witness: the C2 (amended) behaviour evaluated at the concrete state
with repository 1 annotated. -/
theorem C2_annotation_delete_amended_witness :
    (deleteAi cexDB2 1).repos = cexDB2.repos ∧
    (deleteAi cexDB2 1).repo_fts.filter (fun e => e.rowid == 1) = [] ∧
    (deleteAi cexDB2 1).repo_fts = cexDB2.repo_fts.filter (fun e => !(e.rowid == 1)) :=
  C2_annotation_delete_amended cexDB2 1 (by decide)

/-- No table of the given state still references repository i. -/
def cascadeClean (db : DB) (i : Nat) : Prop :=
  db.repos.all (fun o => !(o.id == i)) = true ∧
  db.stars.all (fun s => !(s.repo_id == i)) = true ∧
  db.embeddings.all (fun e => !(e.repo_id == i)) = true ∧
  db.repo_ai.all (fun a => !(a.repo_id == i)) = true ∧
  db.repo_fts.all (fun e => !(e.rowid == i)) = true ∧
  db.repo_ai_tags.all (fun t => !(t.repo_id == i)) = true

/-- C3.  Deleting a repositories row removes, in the same unit of work,
every stars, embeddings, repo_ai, repo_fts and repo_ai_tags row of that
identifier: afterwards no table references it. -/
theorem C3_cascade_delete (db : DB) (i : Nat)
    (h : db.repos.any (fun o => o.id == i) = true) :
    cascadeClean (deleteRepo db i) i := by
  unfold deleteRepo
  simp only [h, if_true, if_pos]
  refine ⟨?_, ?_, ?_, ?_, ?_, ?_⟩
  all_goals
    rw [List.all_eq_true]
    intro x hx
    exact (List.mem_filter.1 hx).2

/-- Concrete state populating every dependent table of repository 1, used
to evaluate the cascade. -/
def c3DB : DB :=
  { repos := [cexRepo]
    stars := [⟨1, "2025-03-01T00:00:00Z"⟩]
    embeddings := [⟨"1:readme:0", 1, "readme", 0, "hello", 3, "h0", 2⟩]
    repo_ai := [⟨1, some "ai summary", 7⟩]
    repo_fts := [mirrorPure cexRepo]
    sync_jobs := []
    ai_tags := [⟨1, "Rust"⟩]
    repo_ai_tags := [⟨1, 1⟩] }

/-- Witness: the cascade evaluated at a state where repository 1 has a
star, an embedding, an annotation, a mirror entry and a tag link. -/
theorem C3_cascade_delete_witness :
    c3DB.repos.any (fun o => o.id == 1) = true ∧ cascadeClean (deleteRepo c3DB 1) 1 :=
  ⟨by decide, C3_cascade_delete c3DB 1 (by decide)⟩

/-- Duration bookkeeping a sync_jobs row must satisfy: no duration while
open (status started, completed_at NULL), and the derived value
(completed minus started, in seconds) once a completion timestamp is
present. -/
def jobOk (j : SyncJobRow) : Prop :=
  (j.status = JobStatus.started → j.completed_at = none ∧ j.duration_seconds = none) ∧
  (j.completed_at = none → j.duration_seconds = none) ∧
  ∀ c, j.completed_at = some c → j.duration_seconds = some ((c - j.started_at) * 86400)

/-- All sync_jobs rows of a state satisfy the duration bookkeeping. -/
def JobsInv (db : DB) : Prop := ∀ j ∈ db.sync_jobs, jobOk j

/-- A sync-job close (terminal status, completion timestamp set) keeps
the duration bookkeeping: the trigger derives the duration from the new
completion timestamp and the unchanged start timestamp. -/
theorem jobsInv_close {db : DB} {i : String} {st : JobStatus} {c : Rat} {rp vu : Nat}
    {err : Option String} (hst : st ≠ JobStatus.started) (hI : JobsInv db) :
    JobsInv (closeJob db i st c rp vu err) := by
  intro j' hj'
  unfold closeJob updateJob at hj'
  simp only [List.mem_map] at hj'
  obtain ⟨j, hj, rfl⟩ := hj'
  by_cases hid : j.id = i
  · simp only [hid, beq_self_eq_true, if_true, if_pos]
    refine ⟨fun hstc => absurd ?_ hst, fun hc => ?_, fun c' hc' => ?_⟩
    · have : st = JobStatus.started := by simpa [applyJobPatch] using hstc
      exact this
    · simp [applyJobPatch] at hc
    · have : c' = c := by
        simpa [applyJobPatch] using hc'.symm
      simp [applyJobPatch, this]
  · simpa [hid] using hI j hj

/-- A sync-job field update that assigns neither completed_at nor status
keeps the duration bookkeeping: the trigger does not fire and the
relevant columns are untouched. -/
theorem jobsInv_meta {db : DB} {i : String} {p : JobPatch} (hc : p.completed_at = none)
    (hs : p.status = none) (hI : JobsInv db) : JobsInv (updateJob db i p) := by
  intro j' hj'
  unfold updateJob at hj'
  simp only [List.mem_map] at hj'
  obtain ⟨j, hj, rfl⟩ := hj'
  by_cases hid : j.id = i
  · obtain ⟨h1, h2, h3⟩ := hI j hj
    simp only [hid, beq_self_eq_true, if_true, if_pos, hc]
    refine ⟨fun hstc => ?_, fun hcc => ?_, fun c' hc' => ?_⟩
    · have := h1 (by simpa [applyJobPatch, hs] using hstc)
      simpa [applyJobPatch, hc] using this
    · have := h2 (by simpa [applyJobPatch, hc] using hcc)
      simpa [applyJobPatch] using this
    · have := h3 c' (by simpa [applyJobPatch, hc] using hc')
      simpa [applyJobPatch] using this
  · simpa [hid] using hI j hj

/-- A freshly opened sync job satisfies the duration bookkeeping: both
completed_at and duration_seconds start NULL. -/
theorem jobsInv_open {db : DB} {i : String} {trig : Option String} {now : Rat} {db' : DB}
    (h : openJob db i trig now = Except.ok db') (hI : JobsInv db) : JobsInv db' := by
  rw [openJob_ok h]
  intro j hj
  rcases List.mem_append.1 hj with hin | hnew
  · exact hI j hin
  · have : j = ⟨i, trig, JobStatus.started, now, none, none, 0, 0, none⟩ := by simpa using hnew
    subst this
    exact ⟨fun _ => ⟨rfl, rfl⟩, fun _ => rfl, fun c hc => by cases hc⟩

/-- Every committed statement keeps the duration bookkeeping. -/
theorem jobsInv_step {db db' : DB} (hs : DbStep db db') (hI : JobsInv db) : JobsInv db' := by
  cases hs with
  | repo_ins jv d r d' hop =>
    obtain ⟨hc, -⟩ := insertRepo_ok hop
    obtain ⟨-, -, hdb⟩ := insertRepoChecked_ok hc
    rw [hdb]; exact hI
  | repo_upd jv now d i p d' hop =>
    rcases updateRepo_ok hop with ⟨-, rfl⟩ | ⟨r, -, hcheck⟩
    · exact hI
    · obtain ⟨-, hdb⟩ := updateRepoChecked_ok hcheck
      rw [hdb]; exact hI
  | repo_del d i =>
    unfold deleteRepo
    split
    · exact hI
    · exact hI
  | ai_ins d a d' hop =>
    obtain ⟨-, -, hdb⟩ := insertAi_ok hop
    rw [hdb]; exact hI
  | ai_upd d i v now =>
    unfold updateAi
    split
    · exact hI
    · exact hI
  | ai_del d i =>
    unfold deleteAi
    split
    · exact hI
    · exact hI
  | emb_ins d e d' hop =>
    obtain ⟨-, -, hdb⟩ := insertEmbedding_ok hop
    rw [hdb]; exact hI
  | star_ups d s d' hop =>
    rw [upsertStar_ok hop]; exact hI
  | tag_ins d t d' hop =>
    rw [insertTag_ok hop]; exact hI
  | repo_tag_ins d t d' hop =>
    rw [insertRepoAiTag_ok hop]; exact hI
  | job_open d i trig now d' hop =>
    exact jobsInv_open hop hI
  | job_close d i st c rp vu err hst =>
    exact jobsInv_close hst hI
  | job_meta d i p hc hs' =>
    exact jobsInv_meta hc hs' hI

/-- Every reachable state keeps the duration bookkeeping. -/
theorem jobsInv_reachable {db : DB} (h : DbReachable db) : JobsInv db := by
  induction h with
  | base => intro j hj; cases hj
  | step d d' hr hs ih => exact jobsInv_step hs ih

/-- C4.  In every reachable state, a sync_jobs row has NULL
duration_seconds while it is open (status started, completed_at NULL),
and once a completion timestamp is present its duration equals
completed_at minus started_at, scaled to seconds; moreover an UPDATE of
sync_jobs that does not assign completed_at never changes any row's
duration_seconds. -/
theorem C4_sync_job_duration :
    (∀ db, DbReachable db → ∀ j ∈ db.sync_jobs, jobOk j) ∧
    (∀ (db : DB) (i : String) (p : JobPatch), p.completed_at = none →
      (updateJob db i p).sync_jobs.map (fun j => (j.id, j.duration_seconds)) =
        db.sync_jobs.map (fun j => (j.id, j.duration_seconds))) := by
  constructor
  · intro db h
    exact jobsInv_reachable h
  · intro db i p hp
    unfold updateJob
    rw [List.map_map]
    refine List.map_congr_left ?_
    intro j hj
    by_cases hid : j.id = i
    · simp [Function.comp, hid, hp, applyJobPatch]
    · simp [Function.comp, hid]

/-- State with one freshly opened sync job. -/
def c4DB1 : DB :=
  { emptyDB with
    sync_jobs := [⟨"j1", some "cron", JobStatus.started, 1, none, none, 0, 0, none⟩] }

/-- State after closing that job at julian day 3 with final counters. -/
def c4DB2 : DB := closeJob c4DB1 "j1" JobStatus.completed 3 5 7 none

/-- The closed job row of c4DB2. -/
def c4Job : SyncJobRow :=
  ⟨"j1", some "cron", JobStatus.completed, 1, some 3, some (((3 : Rat) - 1) * 86400), 5, 7, none⟩

/-- Witness: the duration bookkeeping evaluated on the concrete
open-then-close run, giving two days scaled to seconds. -/
theorem C4_sync_job_duration_witness :
    c4Job ∈ c4DB2.sync_jobs ∧ c4Job.duration_seconds = some (((3 : Rat) - 1) * 86400) := by
  have hr1 : DbReachable c4DB1 :=
    DbReachable.step emptyDB c4DB1 DbReachable.base
      (DbStep.job_open emptyDB "j1" (some "cron") 1 c4DB1 (by decide))
  have hr2 : DbReachable c4DB2 :=
    DbReachable.step c4DB1 c4DB2 hr1
      (DbStep.job_close c4DB1 "j1" JobStatus.completed 3 5 7 none (by decide))
  have hlist : c4DB2.sync_jobs = [c4Job] := rfl
  have hmem : c4Job ∈ c4DB2.sync_jobs := by rw [hlist]; exact List.mem_singleton.2 rfl
  have h := C4_sync_job_duration.1 c4DB2 hr2 c4Job hmem
  exact ⟨hmem, h.2.2 3 rfl⟩

/-- Embedding identity invariant: sources come from the CHECK constraint
set of the schema, and the (repo_id, source, chunk_idx) triples are
pairwise distinct (unique index idx_embeddings_repo_src_chunk). -/
def EmbInv (db : DB) : Prop :=
  (∀ e ∈ db.embeddings,
    e.source = "readme" ∨ e.source = "desc" ∨ e.source = "topics" ∨ e.source = "about") ∧
  (db.embeddings.map (fun e => (e.repo_id, e.source, e.chunk_idx))).Nodup

/-- A committed INSERT INTO embeddings preserves the identity
invariant. -/
theorem embInv_insert {db : DB} {e : EmbeddingRow} {db' : DB}
    (h : insertEmbedding db e = Except.ok db') (hI : EmbInv db) : EmbInv db' := by
  obtain ⟨h1, h2, hdb⟩ := insertEmbedding_ok h
  obtain ⟨hsrc, hNd⟩ := hI
  simp only [List.any_eq_false] at h2
  constructor
  · rw [hdb]
    intro o ho
    rcases List.mem_append.1 ho with hin | hnew
    · exact hsrc o hin
    · have : o = e := by simpa using hnew
      subst this
      simpa [or_assoc] using h1
  · rw [hdb]
    simp only [List.map_append, List.map_cons, List.map_nil]
    refine hNd.append (List.nodup_singleton _) ?_
    rw [List.disjoint_singleton]
    intro hmem
    obtain ⟨o, ho, hkey⟩ := List.mem_map.1 hmem
    have := h2 o ho
    simp only [Prod.mk.injEq] at hkey
    simp [hkey.1, hkey.2.1, hkey.2.2] at this

/-- Every committed statement preserves the embedding identity
invariant. -/
theorem embInv_step {db db' : DB} (hs : DbStep db db') (hI : EmbInv db) : EmbInv db' := by
  cases hs with
  | repo_ins jv d r d' hop =>
    obtain ⟨hc, -⟩ := insertRepo_ok hop
    obtain ⟨-, -, hdb⟩ := insertRepoChecked_ok hc
    rw [hdb]; exact hI
  | repo_upd jv now d i p d' hop =>
    rcases updateRepo_ok hop with ⟨-, rfl⟩ | ⟨r, -, hcheck⟩
    · exact hI
    · obtain ⟨-, hdb⟩ := updateRepoChecked_ok hcheck
      rw [hdb]; exact hI
  | repo_del d i =>
    unfold deleteRepo
    split
    · obtain ⟨hsrc, hNd⟩ := hI
      constructor
      · intro e he
        exact hsrc e (List.mem_filter.1 he).1
      · exact hNd.sublist ((List.filter_sublist _).map _)
    · exact hI
  | ai_ins d a d' hop =>
    obtain ⟨-, -, hdb⟩ := insertAi_ok hop
    rw [hdb]; exact hI
  | ai_upd d i v now =>
    unfold updateAi
    split
    · exact hI
    · exact hI
  | ai_del d i =>
    unfold deleteAi
    split
    · exact hI
    · exact hI
  | emb_ins d e d' hop =>
    exact embInv_insert hop hI
  | star_ups d s d' hop =>
    rw [upsertStar_ok hop]; exact hI
  | tag_ins d t d' hop =>
    rw [insertTag_ok hop]; exact hI
  | repo_tag_ins d t d' hop =>
    rw [insertRepoAiTag_ok hop]; exact hI
  | job_open d i trig now d' hop =>
    rw [openJob_ok hop]; exact hI
  | job_close d i st c rp vu err hst =>
    exact hI
  | job_meta d i p hc hs' =>
    exact hI

/-- C6 (amended).  In every reachable state, every embeddings row has a
source drawn from the schema's CHECK set — readme, desc, topics, about
(the schema stores the tag desc, not the claimed description) — and the
(repository, source, chunk index) triple is unique across the table. -/
theorem C6_embedding_identity_amended (db : DB) (h : DbReachable db) : EmbInv db := by
  induction h with
  | base => exact ⟨fun e he => absurd he (List.not_mem_nil e), List.nodup_nil⟩
  | step d d' hr hs ih => exact embInv_step hs ih

/-- State with one committed embeddings row tagged desc. -/
def c6DB : DB :=
  { cexDB1 with embeddings := [⟨"1:desc:0", 1, "desc", 0, "a widget", 3, "h1", 2⟩] }

/-- C6 (counterexample).  A row with source desc commits (so the stored
tag set is not the claimed one: desc is not among readme, description,
topics, about), while a row with source description is rejected by the
CHECK constraint. -/
theorem C6_embedding_identity_cex :
    insertEmbedding cexDB1 ⟨"1:desc:0", 1, "desc", 0, "a widget", 3, "h1", 2⟩ =
      Except.ok c6DB ∧
    c6DB.embeddings.all (fun e =>
      e.source == "readme" || e.source == "description" || e.source == "topics" ||
        e.source == "about") = false ∧
    insertEmbedding cexDB1 ⟨"1:description:0", 1, "description", 0, "a widget", 3, "h1", 2⟩ =
      Except.error "CHECK constraint failed: source" := by
  refine ⟨by decide, by decide, by decide⟩

/-- Witness: the amended embedding identity evaluated at the concrete
reachable state holding the desc-tagged row. -/
theorem C6_embedding_identity_amended_witness :
    (∀ e ∈ c6DB.embeddings,
      e.source = "readme" ∨ e.source = "desc" ∨ e.source = "topics" ∨ e.source = "about") ∧
    (c6DB.embeddings.map (fun e => (e.repo_id, e.source, e.chunk_idx))).Nodup := by
  have hr1 : DbReachable cexDB1 :=
    DbReachable.step emptyDB cexDB1 DbReachable.base
      (DbStep.repo_ins jvTrue emptyDB cexRepo cexDB1 (by decide))
  have hr2 : DbReachable c6DB :=
    DbReachable.step cexDB1 c6DB hr1
      (DbStep.emb_ins cexDB1 ⟨"1:desc:0", 1, "desc", 0, "a widget", 3, "h1", 2⟩ c6DB (by decide))
  exact C6_embedding_identity_amended c6DB hr2

/-- Name uniqueness invariant of the repos table: pairwise distinct ids
(primary key) and pairwise distinct case-folded full names (unique index
ux_repos_full_name_nocase). -/
def NameInv (db : DB) : Prop :=
  (db.repos.map (fun r => r.id)).Nodup ∧
  (db.repos.map (fun r => asciiLower r.full_name)).Nodup

/-- Replacing the rows of one id by a row whose case-folded name collides
with no other row keeps the case-folded names pairwise distinct. -/
theorem nodup_names_update {l : List RepoRow} {i : Nat} {t : RepoRow}
    (hids : (l.map (fun r => r.id)).Nodup)
    (hn : (l.map (fun r => asciiLower r.full_name)).Nodup)
    (hg : ∀ o ∈ l, o.id ≠ i → asciiLower o.full_name ≠ asciiLower t.full_name) :
    ((l.map (fun o => if o.id == i then t else o)).map
      (fun r => asciiLower r.full_name)).Nodup := by
  induction l with
  | nil => simp
  | cons a tl ih =>
    simp only [List.map_cons, List.nodup_cons, List.mem_map] at hids hn
    obtain ⟨hai, hidtl⟩ := hids
    obtain ⟨han, hntl⟩ := hn
    by_cases haid : a.id = i
    · have htl_id : ∀ o ∈ tl, o.id ≠ i := by
        intro o ho hoi
        exact hai ⟨o, ho, by rw [hoi, haid]⟩
      have htl_fix : tl.map (fun o => if o.id == i then t else o) = tl := by
        refine (List.map_congr_left ?_).trans (List.map_id tl)
        intro o ho
        simp [htl_id o ho]
      simp only [List.map_cons, haid, beq_self_eq_true, if_true, if_pos, htl_fix,
        List.nodup_cons, List.mem_map]
      refine ⟨?_, hntl⟩
      rintro ⟨o, ho, hname⟩
      exact hg o (List.mem_cons_of_mem a ho) (htl_id o ho) hname
    · have hga : asciiLower a.full_name ≠ asciiLower t.full_name :=
        hg a (List.mem_cons_self a tl) haid
      have hrec := ih hidtl hntl (fun o ho hoi => hg o (List.mem_cons_of_mem a ho) hoi)
      have hgaeq : (if (a.id == i) = true then t else a) = a := by simp [haid]
      simp only [List.map_cons, hgaeq, List.nodup_cons]
      refine ⟨?_, hrec⟩
      intro hmem
      obtain ⟨o', ho', hname⟩ := List.mem_map.1 hmem
      obtain ⟨o, ho, rfl⟩ := List.mem_map.1 ho'
      by_cases hoi : o.id = i
      · rw [if_pos (by simpa using hoi)] at hname
        exact hga hname.symm
      · rw [if_neg (by simpa using hoi)] at hname
        exact han ⟨o, ho, hname⟩

/-- A committed INSERT INTO repos preserves the name invariant. -/
theorem nameInv_insert {jv : String → Bool} {db : DB} {r : RepoRow} {db' : DB}
    (h : insertRepo jv db r = Except.ok db') (hI : NameInv db) : NameInv db' := by
  obtain ⟨hc, -⟩ := insertRepo_ok h
  obtain ⟨h1, h2, hdb⟩ := insertRepoChecked_ok hc
  simp only [List.any_eq_false] at h1 h2
  obtain ⟨hids, hnames⟩ := hI
  constructor
  · rw [hdb]
    simp only [List.map_append, List.map_cons, List.map_nil]
    refine hids.append (List.nodup_singleton _) ?_
    rw [List.disjoint_singleton]
    intro hmem
    obtain ⟨o, ho, hoi⟩ := List.mem_map.1 hmem
    have hne : o.id ≠ r.id := by simpa using h1 o ho
    exact hne hoi
  · rw [hdb]
    simp only [List.map_append, List.map_cons, List.map_nil]
    refine hnames.append (List.nodup_singleton _) ?_
    rw [List.disjoint_singleton]
    intro hmem
    obtain ⟨o, ho, hon⟩ := List.mem_map.1 hmem
    have hne : asciiLower o.full_name ≠ asciiLower r.full_name := by simpa using h2 o ho
    exact hne hon

/-- A committed UPDATE repos preserves the name invariant. -/
theorem nameInv_update {jv : String → Bool} {now : Nat} {db : DB} {i : Nat} {p : RepoPatch}
    {db' : DB} (h : updateRepo jv now db i p = Except.ok db') (hI : NameInv db) :
    NameInv db' := by
  obtain ⟨hids, hnames⟩ := hI
  rcases updateRepo_ok h with ⟨-, rfl⟩ | ⟨r, hfind, hc⟩
  · exact ⟨hids, hnames⟩
  obtain ⟨hguard, hdb⟩ := updateRepoChecked_ok hc
  have hri : r.id = i := by simpa using List.find?_some hfind
  constructor
  · rw [hdb]
    exact nodup_map_id_update (by simp [applyRepoPatch, hri]) hids
  · rw [hdb]
    by_cases hpf : p.full_name.isSome
    · have hany : db.repos.any (fun o =>
          !(o.id == i) && (asciiLower o.full_name == asciiLower (applyRepoPatch r p).full_name))
          = false := by
        cases hv : db.repos.any (fun o =>
          !(o.id == i) && (asciiLower o.full_name == asciiLower (applyRepoPatch r p).full_name))
        · rfl
        · rw [hpf, hv] at hguard; cases hguard
      simp only [List.any_eq_false] at hany
      refine nodup_names_update hids hnames ?_
      intro o ho hoi
      have := hany o ho
      simpa [hoi] using this
    · have hfn : p.full_name = none := by
        cases hv : p.full_name
        · rfl
        · exact absurd (by simp [hv]) hpf
      have hrmem : r ∈ db.repos := List.mem_of_find?_eq_some hfind
      refine nodup_names_update hids hnames ?_
      intro o ho hoi hcol
      have htn : asciiLower
          ({ applyRepoPatch r p with last_synced_at := now } : RepoRow).full_name =
          asciiLower r.full_name := by
        simp [applyRepoPatch, hfn]
      rw [htn] at hcol
      have hoe : o = r := List.inj_on_of_nodup_map hnames ho hrmem hcol
      exact hoi (by rw [hoe, hri])

/-- Every committed statement preserves the name invariant. -/
theorem nameInv_step {db db' : DB} (hs : DbStep db db') (hI : NameInv db) : NameInv db' := by
  cases hs with
  | repo_ins jv d r d' hop =>
    exact nameInv_insert hop hI
  | repo_upd jv now d i p d' hop =>
    exact nameInv_update hop hI
  | repo_del d i =>
    unfold deleteRepo
    split
    · obtain ⟨hids, hnames⟩ := hI
      exact ⟨hids.sublist ((List.filter_sublist _).map _),
        hnames.sublist ((List.filter_sublist _).map _)⟩
    · exact hI
  | ai_ins d a d' hop =>
    obtain ⟨-, -, hdb⟩ := insertAi_ok hop
    rw [hdb]; exact hI
  | ai_upd d i v now =>
    unfold updateAi
    split
    · exact hI
    · exact hI
  | ai_del d i =>
    unfold deleteAi
    split
    · exact hI
    · exact hI
  | emb_ins d e d' hop =>
    obtain ⟨-, -, hdb⟩ := insertEmbedding_ok hop
    rw [hdb]; exact hI
  | star_ups d s d' hop =>
    rw [upsertStar_ok hop]; exact hI
  | tag_ins d t d' hop =>
    rw [insertTag_ok hop]; exact hI
  | repo_tag_ins d t d' hop =>
    rw [insertRepoAiTag_ok hop]; exact hI
  | job_open d i trig now d' hop =>
    rw [openJob_ok hop]; exact hI
  | job_close d i st c rp vu err hst =>
    exact hI
  | job_meta d i p hc hs' =>
    exact hI

/-- Every reachable state satisfies the name invariant. -/
theorem nameInv_reachable {db : DB} (h : DbReachable db) : NameInv db := by
  induction h with
  | base => exact ⟨List.nodup_nil, List.nodup_nil⟩
  | step d d' hr hs ih => exact nameInv_step hs ih

/-- C7.  In every reachable state no two repositories rows share a
case-folded full name, and an INSERT of a row under a fresh id whose full
name collides case-insensitively with an existing row is rejected by the
unique index ux_repos_full_name_nocase, leaving the table unchanged (the
statement aborts with an error and commits nothing). -/
theorem C7_full_name_nocase_unique :
    (∀ db, DbReachable db → (db.repos.map (fun r => asciiLower r.full_name)).Nodup) ∧
    (∀ (jv : String → Bool) (db : DB) (r : RepoRow),
      (∀ t, r.topics_json = some t → jv t = true) →
      db.repos.any (fun o => o.id == r.id) = false →
      db.repos.any (fun o => asciiLower o.full_name == asciiLower r.full_name) = true →
      insertRepo jv db r =
        Except.error "UNIQUE constraint failed: index ux_repos_full_name_nocase") := by
  constructor
  · intro db h
    exact (nameInv_reachable h).2
  · intro jv db r hjv hid hname
    have hchecked : insertRepoChecked db r =
        Except.error "UNIQUE constraint failed: index ux_repos_full_name_nocase" := by
      unfold insertRepoChecked
      rw [hid, hname]
      rfl
    cases ht : r.topics_json with
    | none =>
      unfold insertRepo
      rw [ht]
      exact hchecked
    | some t =>
      unfold insertRepo
      rw [ht]
      show (if jv t = true then insertRepoChecked db r else
        Except.error "topics_json must be valid JSON") = _
      rw [hjv t ht, if_pos rfl]
      exact hchecked

/-- Row colliding with cexRepo only in the case-folded full name, under a
different id. -/
def c7Row : RepoRow := { cexRepo with id := 2, full_name := "Octo/Widget" }

/-- Witness: the name invariant at the concrete reachable state holding
cexRepo, and the rejection of the case-colliding insert there. -/
theorem C7_full_name_nocase_unique_witness :
    (cexDB1.repos.map (fun r => asciiLower r.full_name)).Nodup ∧
    insertRepo jvTrue cexDB1 c7Row =
      Except.error "UNIQUE constraint failed: index ux_repos_full_name_nocase" := by
  have hr1 : DbReachable cexDB1 :=
    DbReachable.step emptyDB cexDB1 DbReachable.base
      (DbStep.repo_ins jvTrue emptyDB cexRepo cexDB1 (by decide))
  refine ⟨C7_full_name_nocase_unique.1 cexDB1 hr1, ?_⟩
  exact C7_full_name_nocase_unique.2 jvTrue cexDB1 c7Row
    (fun t ht => by cases ht) (by decide) (by decide)

/-- C8.  A repos INSERT whose topics_json is non-NULL and not valid JSON,
and a repos UPDATE assigning such a topics_json to an existing row, are
both aborted by the BEFORE triggers tr_repos_topics_json_ins /
tr_repos_topics_json_upd with the trigger's message; the statement
returns an error and commits nothing, so the repositories table is left
exactly as it was. -/
theorem C8_topics_json_validation :
    (∀ (jv : String → Bool) (db : DB) (r : RepoRow) (t : String),
      r.topics_json = some t → jv t = false →
      insertRepo jv db r = Except.error "topics_json must be valid JSON") ∧
    (∀ (jv : String → Bool) (now : Nat) (db : DB) (i : Nat) (p : RepoPatch) (t : String),
      db.repos.any (fun o => o.id == i) = true →
      p.topics_json = some (some t) → jv t = false →
      updateRepo jv now db i p = Except.error "topics_json must be valid JSON") := by
  constructor
  · intro jv db r t ht hjv
    unfold insertRepo
    rw [ht]
    show (if jv t = true then insertRepoChecked db r else
      Except.error "topics_json must be valid JSON") = _
    rw [hjv]
    rfl
  · intro jv now db i p t hany hp hjv
    have hsome : (db.repos.find? (fun o => o.id == i)).isSome := by
      rw [List.find?_isSome]
      simpa using hany
    obtain ⟨r, hr⟩ := Option.isSome_iff_exists.1 hsome
    unfold updateRepo
    rw [hr, hp]
    show (if jv t = true then updateRepoChecked now db i r p else
      Except.error "topics_json must be valid JSON") = _
    rw [hjv]
    rfl

/-- Witness: the validation trigger on both paths, with a validator
rejecting the concrete string "oops". -/
theorem C8_topics_json_validation_witness :
    ({ cexRepo with topics_json := some "oops" } : RepoRow).topics_json = some "oops" ∧
    (fun _ => false : String → Bool) "oops" = false ∧
    cexDB1.repos.any (fun o => o.id == 1) = true ∧
    insertRepo (fun _ => false) emptyDB { cexRepo with topics_json := some "oops" } =
      Except.error "topics_json must be valid JSON" ∧
    updateRepo (fun _ => false) 9 cexDB1 1 { topics_json := some (some "oops") } =
      Except.error "topics_json must be valid JSON" := by
  refine ⟨rfl, rfl, by decide, ?_, ?_⟩
  · exact C8_topics_json_validation.1 (fun _ => false) emptyDB
      { cexRepo with topics_json := some "oops" } "oops" rfl rfl
  · exact C8_topics_json_validation.2 (fun _ => false) 9 cexDB1 1
      { topics_json := some (some "oops") } "oops" (by decide) rfl rfl

/-- C9.  For a non-empty query, the modelled lexical search over the
mirror returns exactly the mirror entries matching the query — sound
(every result is a matching mirror entry, its rowid the repository
identifier and all mirror fields in the payload) and complete (every
matching entry is returned) — ordered by the relevance score. -/
theorem C9_search_over_mirror (score : FtsRow → Int) (db : DB) (q : String) (hq : q ≠ "") :
    (∀ e ∈ searchMirror score db q, e ∈ db.repo_fts ∧ entryMatches q e = true) ∧
    (∀ e ∈ db.repo_fts, entryMatches q e = true → e ∈ searchMirror score db q) ∧
    (searchMirror score db q).Sorted (fun a b => score b ≤ score a) := by
  haveI htot : IsTotal FtsRow (fun a b => score b ≤ score a) :=
    ⟨fun a b => le_total (score b) (score a)⟩
  haveI htrans : IsTrans FtsRow (fun a b => score b ≤ score a) :=
    ⟨fun a b c h1 h2 => le_trans h2 h1⟩
  refine ⟨?_, ?_, ?_⟩
  · intro e he
    have := (List.mem_insertionSort _).1 he
    exact ⟨(List.mem_filter.1 this).1, (List.mem_filter.1 this).2⟩
  · intro e he hm
    exact (List.mem_insertionSort _).2 (List.mem_filter.2 ⟨he, hm⟩)
  · exact List.sorted_insertionSort _ _

/-- Witness: the search conclusion evaluated with the constant score on
the concrete mirror of cexDB2 and the query widget. -/
theorem C9_search_over_mirror_witness :
    ("widget" : String) ≠ "" ∧
    ((∀ e ∈ searchMirror (fun _ => 0) cexDB2 "widget",
        e ∈ cexDB2.repo_fts ∧ entryMatches "widget" e = true) ∧
      (∀ e ∈ cexDB2.repo_fts, entryMatches "widget" e = true →
        e ∈ searchMirror (fun _ => 0) cexDB2 "widget") ∧
      (searchMirror (fun _ => 0) cexDB2 "widget").Sorted
        (fun a b => (fun _ => (0 : Int)) b ≤ (fun _ => (0 : Int)) a)) :=
  ⟨by decide, C9_search_over_mirror (fun _ => 0) cexDB2 "widget" (by decide)⟩

/-- C10.  The queue consumer is effect-free on all persistent state: for
every batch it returns the environment unchanged — D1 tables, KV, R2 and
the vector index included — and only produces the log lines of its
per-message console.log loop. -/
theorem C10_queue_consumer_pure (env : WorkerEnv) (batch : List String) :
    (queueConsumer env batch).1 = env ∧
    (queueConsumer env batch).1.db = env.db ∧
    (queueConsumer env batch).1.terms = env.terms ∧
    (queueConsumer env batch).1.inbox = env.inbox ∧
    (queueConsumer env batch).1.vec = env.vec ∧
    (queueConsumer env batch).2 = batch.map (fun b => ("queue message", b)) :=
  ⟨rfl, rfl, rfl, rfl, rfl, rfl⟩

/-- Witness: the queue consumer evaluated on a concrete environment and a
two-message batch. -/
theorem C10_queue_consumer_pure_witness :
    (queueConsumer ⟨c3DB, [("t", "v")], [("k", "o")], [("v1", [1, 2])]⟩
        ["m1", "m2"]).1 =
      ⟨c3DB, [("t", "v")], [("k", "o")], [("v1", [1, 2])]⟩ :=
  (C10_queue_consumer_pure ⟨c3DB, [("t", "v")], [("k", "o")], [("v1", [1, 2])]⟩
    ["m1", "m2"]).1

/-- Star snapshot row written for a payload. -/
def starOf (p : Payload) : StarRow := ⟨p.id, p.starred_at⟩

/-- Mirror entry a payload's repository carries after sync (no annotation
is written by the orchestrator). -/
def mirrorPayload (p : Payload) : FtsRow :=
  ⟨p.id, some p.full_name, p.description, p.topics_json, none⟩

/-- Embeddings rows one source field of a payload contributes. -/
def canonSrc (ch : String → List String) (hs : String → String) (dim now : Nat)
    (rid : Nat) (src : String) (t : Option String) : List EmbeddingRow :=
  (idxFrom 0 (chunksOf ch t)).map (fun ic => mkEmb hs dim now rid src ic.1 ic.2)

/-- Embeddings rows a list of source fields contributes, in order. -/
def canonSources (ch : String → List String) (hs : String → String) (dim now : Nat)
    (rid : Nat) : List (String × Option String) → List EmbeddingRow
  | [] => []
  | sc :: rest =>
    canonSrc ch hs dim now rid sc.1 sc.2 ++ canonSources ch hs dim now rid rest

/-- Embeddings rows one payload contributes. -/
def canonRepo (ch : String → List String) (hs : String → String) (dim now : Nat)
    (p : Payload) : List EmbeddingRow :=
  canonSources ch hs dim now p.id (sourceList p)

/-- Embeddings rows a batch contributes, in order. -/
def canonBatch (ch : String → List String) (hs : String → String) (dim now : Nat) :
    List Payload → List EmbeddingRow
  | [] => []
  | p :: rest => canonRepo ch hs dim now p ++ canonBatch ch hs dim now rest

/-- State of the database mid-way through a re-sync of the batch
done ++ rest: every payload's catalog row, star, mirror entry and
embeddings (written at clock t1) are present; the rows of the already
re-processed prefix carry last_synced_at t2, the rest still t1. -/
def midDB (ch : String → List String) (hs : String → String) (dim t1 t2 : Nat)
    (done rest : List Payload) : DB :=
  { repos := done.map (rowFrom hs t2) ++ rest.map (rowFrom hs t1)
    stars := (done ++ rest).map starOf
    embeddings := canonBatch ch hs dim t1 (done ++ rest)
    repo_ai := []
    repo_fts := (done ++ rest).map mirrorPayload
    sync_jobs := []
    ai_tags := []
    repo_ai_tags := [] }

/-- Indices produced by idxFrom start at its offset. -/
theorem idxFrom_ge {k : Nat} {cs : List String} {ic : Nat × String}
    (h : ic ∈ idxFrom k cs) : k ≤ ic.1 := by
  induction cs generalizing k with
  | nil => cases h
  | cons c cs ih =>
    rcases List.mem_cons.1 h with rfl | htl
    · exact le_refl _
    · exact Nat.le_of_succ_le (ih htl)

/-- Indices produced by idxFrom stay below offset plus length. -/
theorem idxFrom_lt {k : Nat} {cs : List String} {ic : Nat × String}
    (h : ic ∈ idxFrom k cs) : ic.1 < k + cs.length := by
  induction cs generalizing k with
  | nil => cases h
  | cons c cs ih =>
    rcases List.mem_cons.1 h with rfl | htl
    · simp only [List.length_cons]
      omega
    · have := ih htl
      simp only [List.length_cons]
      omega

/-- Shape of a row contributed by one source field. -/
theorem mem_canonSrc {ch : String → List String} {hs : String → String} {dim now rid : Nat}
    {src : String} {t : Option String} {e : EmbeddingRow}
    (h : e ∈ canonSrc ch hs dim now rid src t) :
    e.repo_id = rid ∧ e.source = src ∧ e.chunk_idx < (chunksOf ch t).length := by
  obtain ⟨ic, hic, rfl⟩ := List.mem_map.1 h
  refine ⟨rfl, rfl, ?_⟩
  simpa using idxFrom_lt hic

/-- A row contributed by a source list comes from one of its sources. -/
theorem mem_canonSources {ch : String → List String} {hs : String → String}
    {dim now rid : Nat} {scs : List (String × Option String)} {e : EmbeddingRow}
    (h : e ∈ canonSources ch hs dim now rid scs) :
    ∃ sc ∈ scs, e ∈ canonSrc ch hs dim now rid sc.1 sc.2 := by
  induction scs with
  | nil => cases h
  | cons sc rest ih =>
    rcases List.mem_append.1 h with hl | hr
    · exact ⟨sc, List.mem_cons_self sc rest, hl⟩
    · obtain ⟨sc', hsc', he⟩ := ih hr
      exact ⟨sc', List.mem_cons_of_mem sc hsc', he⟩

/-- A row contributed by a batch comes from one of its payloads. -/
theorem mem_canonBatch {ch : String → List String} {hs : String → String} {dim now : Nat}
    {ps : List Payload} {e : EmbeddingRow} (h : e ∈ canonBatch ch hs dim now ps) :
    ∃ p ∈ ps, e ∈ canonRepo ch hs dim now p := by
  induction ps with
  | nil => cases h
  | cons p rest ih =>
    rcases List.mem_append.1 h with hl | hr
    · exact ⟨p, List.mem_cons_self p rest, hl⟩
    · obtain ⟨p', hp', he⟩ := ih hr
      exact ⟨p', List.mem_cons_of_mem p hp', he⟩

/-- A row contributed by a payload carries that payload's repository id. -/
theorem mem_canonRepo_id {ch : String → List String} {hs : String → String} {dim now : Nat}
    {p : Payload} {e : EmbeddingRow} (h : e ∈ canonRepo ch hs dim now p) :
    e.repo_id = p.id := by
  obtain ⟨sc, -, he⟩ := mem_canonSources h
  exact (mem_canonSrc he).1

/-- Batch contributions concatenate. -/
theorem canonBatch_append (ch : String → List String) (hs : String → String) (dim now : Nat)
    (l1 l2 : List Payload) :
    canonBatch ch hs dim now (l1 ++ l2) =
      canonBatch ch hs dim now l1 ++ canonBatch ch hs dim now l2 := by
  induction l1 with
  | nil => rfl
  | cons p rest ih => simp [canonBatch, ih]

/-- The chunk-upsert fold over fresh indices (no row of this repository
and source at or beyond the starting index exists) appends exactly the
canonical rows. -/
theorem fold_fresh (hs : String → String) (dim now rid : Nat) (src : String) :
    ∀ (cs : List String) (k : Nat) (embs : List EmbeddingRow),
    (∀ e ∈ embs, e.repo_id = rid → e.source = src → e.chunk_idx < k) →
    (idxFrom k cs).foldl (upsertChunk hs dim now rid src) embs
      = embs ++ (idxFrom k cs).map (fun ic => mkEmb hs dim now rid src ic.1 ic.2) := by
  intro cs
  induction cs with
  | nil =>
    intro k embs h
    simp [idxFrom]
  | cons c cs ih =>
    intro k embs h
    have hfind : embs.find? (embKey rid src k) = none := by
      rw [List.find?_eq_none]
      intro e he hkey
      simp only [embKey, Bool.and_eq_true, beq_iff_eq] at hkey
      have := h e he hkey.1.1 hkey.1.2
      omega
    have hstep : upsertChunk hs dim now rid src embs (k, c)
        = embs ++ [mkEmb hs dim now rid src k c] := by
      unfold upsertChunk
      rw [hfind]
    have hnext : ∀ e ∈ embs ++ [mkEmb hs dim now rid src k c],
        e.repo_id = rid → e.source = src → e.chunk_idx < k + 1 := by
      intro e he hrid hsrc
      rcases List.mem_append.1 he with hl | hr
      · exact Nat.lt_succ_of_lt (h e hl hrid hsrc)
      · have : e = mkEmb hs dim now rid src k c := by simpa using hr
        subst this
        exact Nat.lt_succ_self k
    calc (idxFrom k (c :: cs)).foldl (upsertChunk hs dim now rid src) embs
        = (idxFrom (k + 1) cs).foldl (upsertChunk hs dim now rid src)
            (embs ++ [mkEmb hs dim now rid src k c]) := by
          rw [show idxFrom k (c :: cs) = (k, c) :: idxFrom (k + 1) cs from rfl,
            List.foldl_cons, hstep]
      _ = (embs ++ [mkEmb hs dim now rid src k c]) ++
            (idxFrom (k + 1) cs).map (fun ic => mkEmb hs dim now rid src ic.1 ic.2) :=
          ih (k + 1) _ hnext
      _ = embs ++ (idxFrom k (c :: cs)).map (fun ic => mkEmb hs dim now rid src ic.1 ic.2) := by
          rw [show idxFrom k (c :: cs) = (k, c) :: idxFrom (k + 1) cs from rfl]
          simp [List.append_assoc]

/-- Reconciling a source field for a repository that has no rows of that
(repository, source) pair appends exactly the canonical rows. -/
theorem reconcileSource_fresh {ch : String → List String} {hs : String → String}
    {dim now : Nat} {S : DB} {rid : Nat} {src : String} {t : Option String}
    (h : ∀ e ∈ S.embeddings, ¬(e.repo_id = rid ∧ e.source = src)) :
    reconcileSource ch hs dim now S rid src t =
      { S with embeddings := S.embeddings ++ canonSrc ch hs dim now rid src t } := by
  have hfilter : S.embeddings.filter (fun e =>
      !(e.repo_id == rid && e.source == src && Nat.ble (chunksOf ch t).length e.chunk_idx))
      = S.embeddings := by
    rw [List.filter_eq_self]
    intro e he
    have hne := h e he
    by_cases h1 : e.repo_id = rid
    · by_cases h2 : e.source = src
      · exact absurd ⟨h1, h2⟩ hne
      · simp [h2]
    · simp [h1]
  have hcond : ∀ e ∈ S.embeddings, e.repo_id = rid → e.source = src → e.chunk_idx < 0 :=
    fun e he h1 h2 => absurd ⟨h1, h2⟩ (h e he)
  show { S with embeddings := _ } = _
  rw [hfilter, fold_fresh hs dim now rid src (chunksOf ch t) 0 S.embeddings hcond]
  rfl

/-- Reconciling a list of pairwise distinct source fields for a
repository with no prior rows of any of them appends exactly the
canonical rows of every source, in order. -/
theorem reconcile_sources_fresh {ch : String → List String} {hs : String → String}
    {dim now rid : Nat} :
    ∀ (scs : List (String × Option String)) (S : DB),
    (∀ e ∈ S.embeddings, e.repo_id = rid → ¬(e.source ∈ scs.map Prod.fst)) →
    (scs.map Prod.fst).Nodup →
    scs.foldl (fun d sc => reconcileSource ch hs dim now d rid sc.1 sc.2) S
      = { S with embeddings := S.embeddings ++ canonSources ch hs dim now rid scs } := by
  intro scs
  induction scs with
  | nil =>
    intro S h hnd
    simp [canonSources]
  | cons sc rest ih =>
    intro S h hnd
    simp only [List.map_cons, List.nodup_cons] at hnd
    obtain ⟨hhd, htl⟩ := hnd
    rw [List.foldl_cons]
    have hfresh : ∀ e ∈ S.embeddings, ¬(e.repo_id = rid ∧ e.source = sc.1) := by
      intro e he hpair
      exact h e he hpair.1 (by simp [hpair.2])
    rw [reconcileSource_fresh hfresh]
    have hnext : ∀ e ∈ S.embeddings ++ canonSrc ch hs dim now rid sc.1 sc.2,
        e.repo_id = rid → ¬(e.source ∈ rest.map Prod.fst) := by
      intro e he hrid hmem
      rcases List.mem_append.1 he with hl | hr
      · exact h e hl hrid (by simp [hmem])
      · have := (mem_canonSrc hr).2.1
        rw [this] at hmem
        exact hhd hmem
    rw [ih _ hnext htl]
    simp [canonSources, List.append_assoc]

/-- Lookup of a chunk key inside the canonical rows of its own source:
the row of that index is found. -/
theorem find_idx (hs : String → String) (dim now rid : Nat) (src : String) :
    ∀ (cs : List String) (k : Nat) (i : Nat) (c : String), (i, c) ∈ idxFrom k cs →
    ((idxFrom k cs).map (fun ic => mkEmb hs dim now rid src ic.1 ic.2)).find?
      (embKey rid src i) = some (mkEmb hs dim now rid src i c) := by
  intro cs
  induction cs with
  | nil => intro k i c h; cases h
  | cons c0 cs ih =>
    intro k i c h
    rw [show idxFrom k (c0 :: cs) = (k, c0) :: idxFrom (k + 1) cs from rfl] at h ⊢
    rcases List.mem_cons.1 h with heq | htl
    · have h1 : i = k := congrArg Prod.fst heq
      have h2 : c = c0 := congrArg Prod.snd heq
      subst h1; subst h2
      simp only [List.map_cons]
      rw [List.find?_cons_of_pos]
      simp [embKey, mkEmb]
    · have hge := idxFrom_ge htl
      have hne : ¬(k = i) := by omega
      simp only [List.map_cons]
      rw [List.find?_cons_of_neg]
      · exact ih (k + 1) i c htl
      · simp [embKey, mkEmb, hne]

/-- Lookup of a chunk key in rows that all belong to another repository
or another source finds nothing. -/
theorem find_none_other {rid : Nat} {src : String} {i : Nat} {L : List EmbeddingRow}
    (h : ∀ e ∈ L, e.repo_id ≠ rid ∨ e.source ≠ src) :
    L.find? (embKey rid src i) = none := by
  rw [List.find?_eq_none]
  intro e he hkey
  simp only [embKey, Bool.and_eq_true, beq_iff_eq] at hkey
  rcases h e he with hr | hsrc
  · exact hr hkey.1.1
  · exact hsrc hkey.1.2

/-- The chunk-upsert fold leaves the table untouched when every chunk's
key resolves to a row carrying the chunk's current fingerprint. -/
theorem fold_noop (hs : String → String) (dim now rid : Nat) (src : String) :
    ∀ (L : List (Nat × String)) (embs : List EmbeddingRow),
    (∀ ic ∈ L, ∃ e, embs.find? (embKey rid src ic.1) = some e ∧ e.text_hash = hs ic.2) →
    L.foldl (upsertChunk hs dim now rid src) embs = embs := by
  intro L
  induction L with
  | nil => intro embs h; rfl
  | cons ic L ih =>
    intro embs h
    obtain ⟨e, hfind, hhash⟩ := h ic (List.mem_cons_self ic L)
    have hstep : upsertChunk hs dim now rid src embs ic = embs := by
      unfold upsertChunk
      rw [hfind]
      simp [hhash]
    rw [List.foldl_cons, hstep]
    exact ih embs (fun ic' hic' => h ic' (List.mem_cons_of_mem ic hic'))

/-- Reconciling a source field whose chunks are all present with matching
fingerprints, with no orphaned higher index, is a no-op. -/
theorem reconcileSource_noop {ch : String → List String} {hs : String → String}
    {dim now : Nat} {S : DB} {rid : Nat} {src : String} {t : Option String}
    (horph : ∀ e ∈ S.embeddings, e.repo_id = rid → e.source = src →
      e.chunk_idx < (chunksOf ch t).length)
    (hfind : ∀ ic ∈ idxFrom 0 (chunksOf ch t),
      ∃ e, S.embeddings.find? (embKey rid src ic.1) = some e ∧ e.text_hash = hs ic.2) :
    reconcileSource ch hs dim now S rid src t = S := by
  have hfilter : S.embeddings.filter (fun e =>
      !(e.repo_id == rid && e.source == src && Nat.ble (chunksOf ch t).length e.chunk_idx))
      = S.embeddings := by
    rw [List.filter_eq_self]
    intro e he
    by_cases h1 : e.repo_id = rid
    · by_cases h2 : e.source = src
      · have := horph e he h1 h2
        have hble : Nat.ble (chunksOf ch t).length e.chunk_idx = false := by
          cases hb : Nat.ble (chunksOf ch t).length e.chunk_idx
          · rfl
          · exact absurd (Nat.le_of_ble_eq_true hb) (by omega)
        simp [hble]
      · simp [h2]
    · simp [h1]
  show { S with embeddings := _ } = _
  rw [hfilter, fold_noop hs dim now rid src (idxFrom 0 (chunksOf ch t)) S.embeddings hfind]

/-- Forward evaluation of a committing INSERT INTO repos. -/
theorem insertRepo_eval (jv : String → Bool) (db : DB) (r : RepoRow)
    (ht : ∀ t, r.topics_json = some t → jv t = true)
    (h1 : db.repos.any (fun o => o.id == r.id) = false)
    (h2 : db.repos.any (fun o => asciiLower o.full_name == asciiLower r.full_name) = false)
    (h3 : db.repo_fts.any (fun e => e.rowid == r.id) = false) :
    insertRepo jv db r = Except.ok
      { db with
        repos := db.repos ++ [r]
        repo_fts := db.repo_fts ++
          [⟨r.id, some r.full_name, r.description, r.topics_json, aiSummary db r.id⟩] } := by
  have hchecked : insertRepoChecked db r = Except.ok
      { db with
        repos := db.repos ++ [r]
        repo_fts := db.repo_fts ++
          [⟨r.id, some r.full_name, r.description, r.topics_json, aiSummary db r.id⟩] } := by
    unfold insertRepoChecked
    rw [h1, h2, h3]
    simp
  cases htc : r.topics_json with
  | none =>
    unfold insertRepo
    rw [htc] at hchecked ⊢
    exact hchecked
  | some t =>
    unfold insertRepo
    rw [htc] at hchecked ⊢
    show (if jv t = true then insertRepoChecked db r else
      Except.error "topics_json must be valid JSON") = _
    rw [ht t htc, if_pos rfl]
    exact hchecked

/-- Forward evaluation of a committing UPDATE repos on a found row. -/
theorem updateRepo_eval (jv : String → Bool) (now : Nat) (db : DB) (i : Nat) (p : RepoPatch)
    (r : RepoRow) (hfind : db.repos.find? (fun o => o.id == i) = some r)
    (ht : ∀ t, p.topics_json = some (some t) → jv t = true)
    (hguard : (p.full_name.isSome &&
      db.repos.any (fun o =>
        !(o.id == i) && (asciiLower o.full_name == asciiLower (applyRepoPatch r p).full_name)))
      = false) :
    updateRepo jv now db i p = Except.ok
      { db with
        repos := db.repos.map (fun o =>
          if o.id == i then { applyRepoPatch r p with last_synced_at := now } else o)
        repo_fts :=
          if p.full_name.isSome || p.description.isSome || p.topics_json.isSome then
            db.repo_fts.map (fun e =>
              if e.rowid == i then
                { e with
                  full_name := some (applyRepoPatch r p).full_name
                  description := (applyRepoPatch r p).description
                  topics := (applyRepoPatch r p).topics_json }
              else e)
          else db.repo_fts } := by
  have hchecked : updateRepoChecked now db i r p = Except.ok
      { db with
        repos := db.repos.map (fun o =>
          if o.id == i then { applyRepoPatch r p with last_synced_at := now } else o)
        repo_fts :=
          if p.full_name.isSome || p.description.isSome || p.topics_json.isSome then
            db.repo_fts.map (fun e =>
              if e.rowid == i then
                { e with
                  full_name := some (applyRepoPatch r p).full_name
                  description := (applyRepoPatch r p).description
                  topics := (applyRepoPatch r p).topics_json }
              else e)
          else db.repo_fts } := by
    simp only [updateRepoChecked]
    rw [hguard]
    simp
  cases hpt : p.topics_json with
  | none =>
    unfold updateRepo
    rw [hfind]
    rw [hpt] at hchecked ⊢
    exact hchecked
  | some t? =>
    cases t? with
    | none =>
      unfold updateRepo
      rw [hfind]
      rw [hpt] at hchecked ⊢
      exact hchecked
    | some t =>
      unfold updateRepo
      rw [hfind]
      rw [hpt] at hchecked ⊢
      show (if jv t = true then updateRepoChecked now db i r p else
        Except.error "topics_json must be valid JSON") = _
      rw [ht t hpt, if_pos rfl]
      exact hchecked

/-- Forward evaluation of a star upsert inserting a fresh snapshot. -/
theorem upsertStar_eval_insert (db : DB) (s : StarRow)
    (h1 : db.repos.any (fun r => r.id == s.repo_id) = true)
    (h2 : db.stars.any (fun o => o.repo_id == s.repo_id) = false) :
    upsertStar db s = Except.ok { db with stars := db.stars ++ [s] } := by
  unfold upsertStar
  rw [h1, h2]
  simp

/-- Forward evaluation of a star upsert overwriting the snapshot. -/
theorem upsertStar_eval_replace (db : DB) (s : StarRow)
    (h1 : db.repos.any (fun r => r.id == s.repo_id) = true)
    (h2 : db.stars.any (fun o => o.repo_id == s.repo_id) = true) :
    upsertStar db s = Except.ok
      { db with stars := db.stars.map (fun o => if o.repo_id == s.repo_id then s else o) } := by
  unfold upsertStar
  rw [h1, h2]
  simp

/-- The source tags of a payload's source list are the four schema
tags. -/
theorem sourceList_fst (p : Payload) :
    (sourceList p).map Prod.fst = ["readme", "desc", "topics", "about"] := rfl

/-- The four source tags are pairwise distinct. -/
theorem sourceList_fst_nodup (p : Payload) : ((sourceList p).map Prod.fst).Nodup := by
  rw [sourceList_fst]
  decide

/-- Within one payload's source list, the tag determines the source
field. -/
theorem sourceList_inj {p : Payload} {sc1 sc2 : String × Option String}
    (h1 : sc1 ∈ sourceList p) (h2 : sc2 ∈ sourceList p) (h : sc1.1 = sc2.1) : sc1 = sc2 := by
  simp only [sourceList, List.mem_cons, List.mem_singleton, List.not_mem_nil, or_false] at h1 h2
  rcases h1 with rfl | rfl | rfl | rfl <;> rcases h2 with rfl | rfl | rfl | rfl <;>
    first
      | rfl
      | (exfalso; simp at h)

/-- Lookup of a chunk key in the canonical rows of a source list with
pairwise distinct tags: the row of the key's source and index is
found. -/
theorem find_canonSources {ch : String → List String} {hs : String → String}
    {dim now rid : Nat} :
    ∀ (scs : List (String × Option String)), (scs.map Prod.fst).Nodup →
    ∀ sc ∈ scs, ∀ i c, (i, c) ∈ idxFrom 0 (chunksOf ch sc.2) →
    (canonSources ch hs dim now rid scs).find? (embKey rid sc.1 i)
      = some (mkEmb hs dim now rid sc.1 i c) := by
  intro scs
  induction scs with
  | nil =>
    intro hnd sc hsc
    cases hsc
  | cons sc0 rest ih =>
    intro hnd sc hsc i c hic
    simp only [List.map_cons, List.nodup_cons] at hnd
    obtain ⟨hhd, htl⟩ := hnd
    rw [show canonSources ch hs dim now rid (sc0 :: rest)
      = canonSrc ch hs dim now rid sc0.1 sc0.2 ++ canonSources ch hs dim now rid rest from rfl]
    rcases List.mem_cons.1 hsc with rfl | hmem
    · rw [List.find?_append]
      rw [show canonSrc ch hs dim now rid sc.1 sc.2
        = (idxFrom 0 (chunksOf ch sc.2)).map (fun ic => mkEmb hs dim now rid sc.1 ic.1 ic.2)
        from rfl]
      rw [find_idx hs dim now rid sc.1 (chunksOf ch sc.2) 0 i c hic]
      rfl
    · have hne : sc0.1 ≠ sc.1 := by
        intro hcontra
        exact hhd (hcontra ▸ List.mem_map.2 ⟨sc, hmem, rfl⟩)
      have hnone : (canonSrc ch hs dim now rid sc0.1 sc0.2).find? (embKey rid sc.1 i) = none := by
        apply find_none_other
        intro e he
        right
        rw [(mem_canonSrc he).2.1]
        exact hne
      rw [List.find?_append, hnone]
      rw [show (Option.none.or ((canonSources ch hs dim now rid rest).find? (embKey rid sc.1 i)))
        = (canonSources ch hs dim now rid rest).find? (embKey rid sc.1 i) from by
          cases (canonSources ch hs dim now rid rest).find? (embKey rid sc.1 i) <;> rfl]
      exact ih htl sc hmem i c hic

/-- Bind of a committed statement continues with its state. -/
theorem except_bind_ok {α β : Type} (a : α) (f : α → Except String β) :
    (Except.ok a : Except String α) >>= f = f a := rfl

/-- One fresh payload processed at clock t1 over the synced state of the
batch done (all at t1) extends the state canonically: its catalog row,
star, mirror entry and embeddings are appended. -/
theorem syncRepo_fresh (ch : String → List String) (hs : String → String) (dim : Nat)
    (jv : String → Bool) (t1 t2 : Nat) (done : List Payload) (p : Payload)
    (hid : ∀ q ∈ done, q.id ≠ p.id)
    (hname : ∀ q ∈ done, asciiLower q.full_name ≠ asciiLower p.full_name)
    (htop : ∀ t, p.topics_json = some t → jv t = true) :
    syncRepo ch hs dim jv t1 (midDB ch hs dim t1 t2 [] done) p
      = Except.ok (midDB ch hs dim t1 t2 [] (done ++ [p])) := by
  have hanyid : ((midDB ch hs dim t1 t2 [] done).repos.any
      (fun r => r.id == (rowFrom hs t1 p).id)) = false := by
    rw [List.any_eq_false]
    intro r hr
    obtain ⟨q, hq, rfl⟩ := List.mem_map.1 hr
    simpa [rowFrom] using hid q hq
  have hanyname : ((midDB ch hs dim t1 t2 [] done).repos.any
      (fun o => asciiLower o.full_name == asciiLower (rowFrom hs t1 p).full_name)) = false := by
    rw [List.any_eq_false]
    intro r hr
    obtain ⟨q, hq, rfl⟩ := List.mem_map.1 hr
    simpa [rowFrom] using hname q hq
  have hftsany : ((midDB ch hs dim t1 t2 [] done).repo_fts.any
      (fun e => e.rowid == (rowFrom hs t1 p).id)) = false := by
    rw [List.any_eq_false]
    intro e he
    obtain ⟨q, hq, rfl⟩ := List.mem_map.1 he
    simpa [mirrorPayload, rowFrom] using hid q hq
  have hins := insertRepo_eval jv (midDB ch hs dim t1 t2 [] done) (rowFrom hs t1 p)
    (fun t h => htop t h) hanyid hanyname hftsany
  have hstar1 : (({ midDB ch hs dim t1 t2 [] done with
      repos := (midDB ch hs dim t1 t2 [] done).repos ++ [rowFrom hs t1 p]
      repo_fts := (midDB ch hs dim t1 t2 [] done).repo_fts ++
        [⟨(rowFrom hs t1 p).id, some (rowFrom hs t1 p).full_name, (rowFrom hs t1 p).description,
          (rowFrom hs t1 p).topics_json,
          aiSummary (midDB ch hs dim t1 t2 [] done) (rowFrom hs t1 p).id⟩] } : DB).repos.any
      (fun r => r.id == (⟨p.id, p.starred_at⟩ : StarRow).repo_id)) = true := by
    simp [rowFrom]
  have hstar2 : (({ midDB ch hs dim t1 t2 [] done with
      repos := (midDB ch hs dim t1 t2 [] done).repos ++ [rowFrom hs t1 p]
      repo_fts := (midDB ch hs dim t1 t2 [] done).repo_fts ++
        [⟨(rowFrom hs t1 p).id, some (rowFrom hs t1 p).full_name, (rowFrom hs t1 p).description,
          (rowFrom hs t1 p).topics_json,
          aiSummary (midDB ch hs dim t1 t2 [] done) (rowFrom hs t1 p).id⟩] } : DB).stars.any
      (fun o => o.repo_id == (⟨p.id, p.starred_at⟩ : StarRow).repo_id)) = false := by
    rw [List.any_eq_false]
    intro s hsm
    obtain ⟨q, hq, rfl⟩ := List.mem_map.1 hsm
    simpa [starOf] using hid q hq
  unfold syncRepo
  rw [show ((midDB ch hs dim t1 t2 [] done).repos.any (fun r => r.id == p.id)) = false
    from hanyid]
  simp only [Bool.false_eq_true, if_false]
  rw [hins, except_bind_ok]
  rw [upsertStar_eval_insert _ _ hstar1 hstar2, except_bind_ok]
  have hfresh : ∀ e ∈ (canonBatch ch hs dim t1 ([] ++ done) : List EmbeddingRow),
      e.repo_id = p.id → ¬(e.source ∈ (sourceList p).map Prod.fst) := by
    intro e he hrid hmem
    obtain ⟨q, hq, he'⟩ := mem_canonBatch he
    exact hid q (by simpa using hq) ((mem_canonRepo_id he').symm.trans hrid)
  rw [reconcile_sources_fresh (sourceList p) _ hfresh (sourceList_fst_nodup p)]
  congr 1
  simp only [midDB]
  congr 1
  · simp [rowFrom]
  · simp [starOf]
  · simp only [List.nil_append]
    rw [canonBatch_append]
    simp [canonBatch, canonRepo]
  · simp [mirrorPayload, rowFrom, aiSummary]

/-- Modelled from the spec: the first sync of a batch of pairwise
distinct, valid payloads over the fresh database builds exactly the
canonical synced state. -/
theorem syncBatch_fresh (ch : String → List String) (hs : String → String) (dim : Nat)
    (jv : String → Bool) (t1 t2 : Nat) :
    ∀ (rest done : List Payload),
    ((done ++ rest).map (fun p => p.id)).Nodup →
    ((done ++ rest).map (fun p => asciiLower p.full_name)).Nodup →
    (∀ p ∈ rest, ∀ t, p.topics_json = some t → jv t = true) →
    rest.foldl (fun d p =>
      match syncRepo ch hs dim jv t1 d p with
      | Except.ok d' => d'
      | Except.error _ => d) (midDB ch hs dim t1 t2 [] done)
      = midDB ch hs dim t1 t2 [] (done ++ rest) := by
  intro rest
  induction rest with
  | nil =>
    intro done _ _ _
    simp
  | cons p rest ih =>
    intro done hids hnames htop
    have hids' : (done.map (fun p => p.id) ++ (p :: rest).map (fun p => p.id)).Nodup := by
      rw [← List.map_append]
      exact hids
    have hnames' : (done.map (fun p => asciiLower p.full_name) ++
        (p :: rest).map (fun p => asciiLower p.full_name)).Nodup := by
      rw [← List.map_append]
      exact hnames
    have hdisj := List.disjoint_of_nodup_append hids'
    have hdisjn := List.disjoint_of_nodup_append hnames'
    have hid : ∀ q ∈ done, q.id ≠ p.id := by
      intro q hq hcontra
      refine hdisj (List.mem_map.2 ⟨q, hq, rfl⟩) ?_
      rw [hcontra]
      exact List.mem_map.2 ⟨p, List.mem_cons_self p rest, rfl⟩
    have hname : ∀ q ∈ done, asciiLower q.full_name ≠ asciiLower p.full_name := by
      intro q hq hcontra
      refine hdisjn (List.mem_map.2 ⟨q, hq, rfl⟩) ?_
      rw [hcontra]
      exact List.mem_map.2 ⟨p, List.mem_cons_self p rest, rfl⟩
    simp only [List.foldl_cons]
    rw [syncRepo_fresh ch hs dim jv t1 t2 done p hid hname
      (htop p (List.mem_cons_self p rest))]
    have hrw : (done ++ [p]) ++ rest = done ++ p :: rest := by
      rw [List.append_assoc, List.singleton_append]
    have hih := ih (done ++ [p]) (by rw [hrw]; exact hids) (by rw [hrw]; exact hnames)
      (fun q hq => htop q (List.mem_cons_of_mem p hq))
    rw [hih, hrw]

/-- Reconciling every source field is a no-op when each field's chunks
are present with matching fingerprints and no orphans exist. -/
theorem fold_reconcile_noop {ch : String → List String} {hs : String → String}
    {dim now : Nat} :
    ∀ (scs : List (String × Option String)) (S : DB) (rid : Nat),
    (∀ sc ∈ scs,
      (∀ e ∈ S.embeddings, e.repo_id = rid → e.source = sc.1 →
        e.chunk_idx < (chunksOf ch sc.2).length) ∧
      (∀ ic ∈ idxFrom 0 (chunksOf ch sc.2),
        ∃ e, S.embeddings.find? (embKey rid sc.1 ic.1) = some e ∧ e.text_hash = hs ic.2)) →
    scs.foldl (fun d sc => reconcileSource ch hs dim now d rid sc.1 sc.2) S = S := by
  intro scs
  induction scs with
  | nil => intro S rid h; rfl
  | cons sc rest ih =>
    intro S rid h
    rw [List.foldl_cons,
      reconcileSource_noop (h sc (List.mem_cons_self sc rest)).1
        (h sc (List.mem_cons_self sc rest)).2]
    exact ih S rid (fun sc' hsc' => h sc' (List.mem_cons_of_mem sc hsc'))

/-- Two database states with equal tables are equal. -/
theorem dbExt {a b : DB} (h1 : a.repos = b.repos) (h2 : a.stars = b.stars)
    (h3 : a.embeddings = b.embeddings) (h4 : a.repo_ai = b.repo_ai)
    (h5 : a.repo_fts = b.repo_fts) (h6 : a.sync_jobs = b.sync_jobs)
    (h7 : a.ai_tags = b.ai_tags) (h8 : a.repo_ai_tags = b.repo_ai_tags) : a = b := by
  cases a
  cases b
  simp_all

/-- Over the canonical embeddings of a batch containing the payload (and
no other payload of its id), every source field of that payload satisfies
the no-op conditions: no orphaned index, and every chunk key resolves to
the canonical row with the chunk's fingerprint. -/
theorem canonBatch_noop_conditions (ch : String → List String) (hs : String → String)
    (dim t1 : Nat) (done rest : List Payload) (p : Payload)
    (hid : ∀ q ∈ done ++ rest, q.id ≠ p.id) :
    ∀ sc ∈ sourceList p,
      (∀ e ∈ canonBatch ch hs dim t1 (done ++ p :: rest),
        e.repo_id = p.id → e.source = sc.1 → e.chunk_idx < (chunksOf ch sc.2).length) ∧
      (∀ ic ∈ idxFrom 0 (chunksOf ch sc.2),
        ∃ e, (canonBatch ch hs dim t1 (done ++ p :: rest)).find?
          (embKey p.id sc.1 ic.1) = some e ∧ e.text_hash = hs ic.2) := by
  intro sc hsc
  constructor
  · intro e he hrid hsrc
    obtain ⟨q, hq, he'⟩ := mem_canonBatch he
    have hq_eq : q = p := by
      rcases List.mem_append.1 hq with hl | hr
      · exact absurd ((mem_canonRepo_id he').symm.trans hrid)
          (hid q (List.mem_append.2 (Or.inl hl)))
      · rcases List.mem_cons.1 hr with rfl | hr'
        · rfl
        · exact absurd ((mem_canonRepo_id he').symm.trans hrid)
            (hid q (List.mem_append.2 (Or.inr hr')))
    subst hq_eq
    obtain ⟨sc', hsc', he''⟩ := mem_canonSources he'
    have hsc_eq : sc' = sc :=
      sourceList_inj hsc' hsc (((mem_canonSrc he'').2.1).symm.trans hsrc)
    subst hsc_eq
    exact (mem_canonSrc he'').2.2
  · intro ic hic
    refine ⟨mkEmb hs dim t1 p.id sc.1 ic.1 ic.2, ?_, rfl⟩
    rw [canonBatch_append, List.find?_append]
    have hleft : (canonBatch ch hs dim t1 done).find? (embKey p.id sc.1 ic.1) = none := by
      apply find_none_other
      intro e he
      left
      rw [mem_canonRepo_id (mem_canonBatch he).choose_spec.2]
      exact hid (mem_canonBatch he).choose
        (List.mem_append.2 (Or.inl (mem_canonBatch he).choose_spec.1))
    rw [hleft, Option.none_or]
    rw [show canonBatch ch hs dim t1 (p :: rest)
      = canonRepo ch hs dim t1 p ++ canonBatch ch hs dim t1 rest from rfl]
    rw [List.find?_append]
    rw [show canonRepo ch hs dim t1 p
      = canonSources ch hs dim t1 p.id (sourceList p) from rfl]
    rw [find_canonSources (sourceList p) (sourceList_fst_nodup p) sc hsc ic.1 ic.2 hic]
    rfl

/-- Re-processing a payload at clock t2 over the synced state: the
catalog row is rewritten with the same values (only last_synced_at moves
to t2 through the touch trigger), the star and mirror entries are
overwritten with identical values, and the embeddings reconciliation is
a no-op — no embeddings row is written or removed. -/
theorem syncRepo_resync (ch : String → List String) (hs : String → String) (dim : Nat)
    (jv : String → Bool) (t1 t2 : Nat) (done rest : List Payload) (p : Payload)
    (hid : ∀ q ∈ done ++ rest, q.id ≠ p.id)
    (hname : ∀ q ∈ done ++ rest, asciiLower q.full_name ≠ asciiLower p.full_name)
    (htop : ∀ t, p.topics_json = some t → jv t = true) :
    syncRepo ch hs dim jv t2 (midDB ch hs dim t1 t2 done (p :: rest)) p
      = Except.ok (midDB ch hs dim t1 t2 (done ++ [p]) rest) := by
  have hidl : ∀ q ∈ done, q.id ≠ p.id :=
    fun q hq => hid q (List.mem_append.2 (Or.inl hq))
  have hidr : ∀ q ∈ rest, q.id ≠ p.id :=
    fun q hq => hid q (List.mem_append.2 (Or.inr hq))
  have hnamel : ∀ q ∈ done, asciiLower q.full_name ≠ asciiLower p.full_name :=
    fun q hq => hname q (List.mem_append.2 (Or.inl hq))
  have hnamer : ∀ q ∈ rest, asciiLower q.full_name ≠ asciiLower p.full_name :=
    fun q hq => hname q (List.mem_append.2 (Or.inr hq))
  have hcond : ((midDB ch hs dim t1 t2 done (p :: rest)).repos.any
      (fun r => r.id == p.id)) = true := by
    rw [List.any_eq_true]
    refine ⟨rowFrom hs t1 p, ?_, by simp [rowFrom]⟩
    exact List.mem_append.2 (Or.inr (List.mem_cons_self _ _))
  have hfind : (midDB ch hs dim t1 t2 done (p :: rest)).repos.find?
      (fun o => o.id == p.id) = some (rowFrom hs t1 p) := by
    show (done.map (rowFrom hs t2) ++ (p :: rest).map (rowFrom hs t1)).find? _ = _
    rw [List.find?_append]
    have hleft : (done.map (rowFrom hs t2)).find? (fun o => o.id == p.id) = none := by
      rw [List.find?_eq_none]
      intro o ho hkey
      obtain ⟨q, hq, rfl⟩ := List.mem_map.1 ho
      exact hidl q hq (by simpa [rowFrom] using hkey)
    rw [hleft, Option.none_or]
    rw [show (p :: rest).map (rowFrom hs t1)
      = rowFrom hs t1 p :: rest.map (rowFrom hs t1) from rfl]
    rw [List.find?_cons_of_pos _ (by simp [rowFrom])]
  have hguard : ((patchFrom hs p).full_name.isSome &&
      (midDB ch hs dim t1 t2 done (p :: rest)).repos.any (fun o =>
        !(o.id == p.id) && (asciiLower o.full_name ==
          asciiLower (applyRepoPatch (rowFrom hs t1 p) (patchFrom hs p)).full_name)))
      = false := by
    have hany : ((midDB ch hs dim t1 t2 done (p :: rest)).repos.any (fun o =>
        !(o.id == p.id) && (asciiLower o.full_name ==
          asciiLower (applyRepoPatch (rowFrom hs t1 p) (patchFrom hs p)).full_name)))
        = false := by
      rw [List.any_eq_false]
      intro o ho
      rcases List.mem_append.1 ho with hl | hr
      · obtain ⟨q, hq, rfl⟩ := List.mem_map.1 hl
        simp only [Bool.and_eq_true, not_and, Bool.not_eq_true, beq_iff_eq]
        intro hne
        simp only [rowFrom, applyRepoPatch, patchFrom]
        intro hcontra
        exact hnamel q hq (by simpa [rowFrom, applyRepoPatch, patchFrom] using hcontra)
      · obtain ⟨q, hq, rfl⟩ := List.mem_map.1 hr
        rcases List.mem_cons.1 hq with rfl | hq'
        · simp [rowFrom]
        · simp only [Bool.and_eq_true, not_and, Bool.not_eq_true, beq_iff_eq]
          intro hne
          intro hcontra
          exact hnamer q hq' (by simpa [rowFrom, applyRepoPatch, patchFrom] using hcontra)
    rw [hany, Bool.and_false]
  have hupd := updateRepo_eval jv t2 (midDB ch hs dim t1 t2 done (p :: rest)) p.id
    (patchFrom hs p) (rowFrom hs t1 p) hfind
    (fun t h => htop t (Option.some.inj h)) hguard
  unfold syncRepo
  rw [hcond]
  simp only [if_true]
  rw [hupd, except_bind_ok]
  have hupd2 :
      ({ (midDB ch hs dim t1 t2 done (p :: rest)) with
        repos := (midDB ch hs dim t1 t2 done (p :: rest)).repos.map (fun o =>
          if o.id == p.id then
            { applyRepoPatch (rowFrom hs t1 p) (patchFrom hs p) with last_synced_at := t2 }
          else o)
        repo_fts :=
          if (patchFrom hs p).full_name.isSome || (patchFrom hs p).description.isSome ||
              (patchFrom hs p).topics_json.isSome then
            (midDB ch hs dim t1 t2 done (p :: rest)).repo_fts.map (fun e =>
              if e.rowid == p.id then
                { e with
                  full_name :=
                    some (applyRepoPatch (rowFrom hs t1 p) (patchFrom hs p)).full_name
                  description := (applyRepoPatch (rowFrom hs t1 p) (patchFrom hs p)).description
                  topics := (applyRepoPatch (rowFrom hs t1 p) (patchFrom hs p)).topics_json }
              else e)
          else (midDB ch hs dim t1 t2 done (p :: rest)).repo_fts } : DB)
      = { repos := done.map (rowFrom hs t2) ++ rowFrom hs t2 p :: rest.map (rowFrom hs t1)
          stars := (done ++ p :: rest).map starOf
          embeddings := canonBatch ch hs dim t1 (done ++ p :: rest)
          repo_ai := []
          repo_fts := (done ++ p :: rest).map mirrorPayload
          sync_jobs := []
          ai_tags := []
          repo_ai_tags := [] } := by
    refine dbExt ?_ ?_ rfl rfl ?_ rfl rfl rfl
    · show (done.map (rowFrom hs t2) ++ (p :: rest).map (rowFrom hs t1)).map _ = _
      rw [List.map_append]
      congr 1
      · refine (List.map_congr_left ?_).trans (List.map_id _)
        intro o ho
        obtain ⟨q, hq, rfl⟩ := List.mem_map.1 ho
        simp [rowFrom, hidl q hq]
      · rw [show (p :: rest).map (rowFrom hs t1)
          = rowFrom hs t1 p :: rest.map (rowFrom hs t1) from rfl]
        rw [List.map_cons]
        congr 1
        · simp [rowFrom, applyRepoPatch, patchFrom]
        · refine (List.map_congr_left ?_).trans (List.map_id _)
          intro o ho
          obtain ⟨q, hq, rfl⟩ := List.mem_map.1 ho
          simp [rowFrom, hidr q hq]
    · rfl
    · rw [if_pos (by simp [patchFrom])]
      refine (List.map_congr_left ?_).trans (List.map_id _)
      intro e he
      obtain ⟨q, hq, rfl⟩ := List.mem_map.1 he
      rcases List.mem_append.1 hq with hl | hr
      · simp [mirrorPayload, hid q (List.mem_append.2 (Or.inl hl))]
      · rcases List.mem_cons.1 hr with rfl | hr'
        · simp [mirrorPayload, applyRepoPatch, patchFrom, rowFrom]
        · simp [mirrorPayload, hid q (List.mem_append.2 (Or.inr hr'))]
  rw [hupd2]
  have hstar1 : ((done.map (rowFrom hs t2) ++ rowFrom hs t2 p :: rest.map (rowFrom hs t1))
      : List RepoRow).any (fun r => r.id == (⟨p.id, p.starred_at⟩ : StarRow).repo_id) = true := by
    rw [List.any_eq_true]
    exact ⟨rowFrom hs t2 p, List.mem_append.2 (Or.inr (List.mem_cons_self _ _)),
      by simp [rowFrom]⟩
  have hstar2 : (((done ++ p :: rest).map starOf) : List StarRow).any
      (fun o => o.repo_id == (⟨p.id, p.starred_at⟩ : StarRow).repo_id) = true := by
    rw [List.any_eq_true]
    exact ⟨starOf p,
      List.mem_map.2 ⟨p, List.mem_append.2 (Or.inr (List.mem_cons_self _ _)), rfl⟩,
      by simp [starOf]⟩
  rw [upsertStar_eval_replace _ _ hstar1 hstar2, except_bind_ok]
  refine congrArg Except.ok ?_
  rw [fold_reconcile_noop (sourceList p) _ p.id
    (canonBatch_noop_conditions ch hs dim t1 done rest p hid)]
  have hlist : (done ++ [p]) ++ rest = done ++ p :: rest := by
    rw [List.append_assoc, List.singleton_append]
  refine dbExt ?_ ?_ ?_ rfl ?_ rfl rfl rfl
  · show done.map (rowFrom hs t2) ++ rowFrom hs t2 p :: rest.map (rowFrom hs t1)
      = (done ++ [p]).map (rowFrom hs t2) ++ rest.map (rowFrom hs t1)
    rw [List.map_append]
    simp
  · show ((done ++ p :: rest).map starOf).map _ = ((done ++ [p]) ++ rest).map starOf
    rw [hlist]
    refine (List.map_congr_left ?_).trans (List.map_id _)
    intro s hsm
    obtain ⟨q, hq, rfl⟩ := List.mem_map.1 hsm
    rcases List.mem_append.1 hq with hl | hr
    · simp [starOf, hid q (List.mem_append.2 (Or.inl hl))]
    · rcases List.mem_cons.1 hr with rfl | hr'
      · simp [starOf]
      · simp [starOf, hid q (List.mem_append.2 (Or.inr hr'))]
  · show canonBatch ch hs dim t1 (done ++ p :: rest)
      = canonBatch ch hs dim t1 ((done ++ [p]) ++ rest)
    rw [hlist]
  · show (done ++ p :: rest).map mirrorPayload = ((done ++ [p]) ++ rest).map mirrorPayload
    rw [hlist]

/-- Modelled from the spec: re-running the sync at clock t2 over the
synced state of the batch rewrites each catalog row in place (moving
last_synced_at to t2) and leaves the embeddings untouched. -/
theorem syncBatch_resync (ch : String → List String) (hs : String → String) (dim : Nat)
    (jv : String → Bool) (t1 t2 : Nat) :
    ∀ (rest done : List Payload),
    ((done ++ rest).map (fun p => p.id)).Nodup →
    ((done ++ rest).map (fun p => asciiLower p.full_name)).Nodup →
    (∀ p ∈ rest, ∀ t, p.topics_json = some t → jv t = true) →
    rest.foldl (fun d p =>
      match syncRepo ch hs dim jv t2 d p with
      | Except.ok d' => d'
      | Except.error _ => d) (midDB ch hs dim t1 t2 done rest)
      = midDB ch hs dim t1 t2 (done ++ rest) [] := by
  intro rest
  induction rest with
  | nil =>
    intro done _ _ _
    simp
  | cons p rest ih =>
    intro done hids hnames htop
    have hids' : (done.map (fun p => p.id) ++ (p :: rest).map (fun p => p.id)).Nodup := by
      rw [← List.map_append]
      exact hids
    have hnames' : (done.map (fun p => asciiLower p.full_name) ++
        (p :: rest).map (fun p => asciiLower p.full_name)).Nodup := by
      rw [← List.map_append]
      exact hnames
    have hdisj := List.disjoint_of_nodup_append hids'
    have hdisjn := List.disjoint_of_nodup_append hnames'
    have hrtl_id : p.id ∉ rest.map (fun p => p.id) := by
      have := (List.nodup_append.1 hids').2.1
      simp only [List.map_cons, List.nodup_cons] at this
      exact this.1
    have hrtl_nm : asciiLower p.full_name ∉ rest.map (fun p => asciiLower p.full_name) := by
      have := (List.nodup_append.1 hnames').2.1
      simp only [List.map_cons, List.nodup_cons] at this
      exact this.1
    have hid : ∀ q ∈ done ++ rest, q.id ≠ p.id := by
      intro q hq hcontra
      rcases List.mem_append.1 hq with hl | hr
      · refine hdisj (List.mem_map.2 ⟨q, hl, rfl⟩) ?_
        rw [hcontra]
        exact List.mem_map.2 ⟨p, List.mem_cons_self p rest, rfl⟩
      · exact hrtl_id (hcontra ▸ List.mem_map.2 ⟨q, hr, rfl⟩)
    have hname : ∀ q ∈ done ++ rest, asciiLower q.full_name ≠ asciiLower p.full_name := by
      intro q hq hcontra
      rcases List.mem_append.1 hq with hl | hr
      · refine hdisjn (List.mem_map.2 ⟨q, hl, rfl⟩) ?_
        rw [hcontra]
        exact List.mem_map.2 ⟨p, List.mem_cons_self p rest, rfl⟩
      · exact hrtl_nm (hcontra ▸ List.mem_map.2 ⟨q, hr, rfl⟩)
    simp only [List.foldl_cons]
    rw [syncRepo_resync ch hs dim jv t1 t2 done rest p hid hname
      (htop p (List.mem_cons_self p rest))]
    have hrw : (done ++ [p]) ++ rest = done ++ p :: rest := by
      rw [List.append_assoc, List.singleton_append]
    have hih := ih (done ++ [p]) (by rw [hrw]; exact hids) (by rw [hrw]; exact hnames)
      (fun q hq => htop q (List.mem_cons_of_mem p hq))
    rw [hih, hrw]

/-- C5.  Re-running the sync over the same batch of pairwise distinct,
valid payloads: the second run writes no embeddings row and changes no
existing one (creation timestamps included), while every repository row's
last_synced_at advances to the later clock now2.  The orchestrator and
payload are modelled from the spec (the queue consumer in the worker is a
stub); the last_synced_at touch trigger and all table constraints are the
migration's. -/
theorem C5_idempotent_reingestion (ch : String → List String) (hs : String → String)
    (dim : Nat) (jv : String → Bool) (now1 now2 : Nat) (ps : List Payload)
    (hids : (ps.map (fun p => p.id)).Nodup)
    (hnames : (ps.map (fun p => asciiLower p.full_name)).Nodup)
    (htop : ∀ p ∈ ps, ∀ t, p.topics_json = some t → jv t = true)
    (hlt : now1 < now2) :
    (syncBatch ch hs dim jv now2 (syncBatch ch hs dim jv now1 emptyDB ps) ps).embeddings
      = (syncBatch ch hs dim jv now1 emptyDB ps).embeddings ∧
    ∀ r ∈ (syncBatch ch hs dim jv now2 (syncBatch ch hs dim jv now1 emptyDB ps) ps).repos,
      r.last_synced_at = now2 := by
  have h1 : syncBatch ch hs dim jv now1 emptyDB ps = midDB ch hs dim now1 now2 [] ps := by
    have h0 := syncBatch_fresh ch hs dim jv now1 now2 ps []
      (by simpa using hids) (by simpa using hnames) htop
    rw [List.nil_append] at h0
    exact h0
  have h2 : syncBatch ch hs dim jv now2 (midDB ch hs dim now1 now2 [] ps) ps
      = midDB ch hs dim now1 now2 ps [] := by
    have h0 := syncBatch_resync ch hs dim jv now1 now2 ps []
      (by simpa using hids) (by simpa using hnames) htop
    rw [List.nil_append] at h0
    exact h0
  rw [h1, h2]
  constructor
  · show canonBatch ch hs dim now1 (ps ++ []) = canonBatch ch hs dim now1 ([] ++ ps)
    rw [List.append_nil, List.nil_append]
  · intro r hr
    have : r ∈ ps.map (rowFrom hs now2) ++ ([] : List Payload).map (rowFrom hs now1) := hr
    rw [List.map_nil, List.append_nil] at this
    obtain ⟨q, hq, rfl⟩ := List.mem_map.1 this
    rfl

/-- Concrete chunker for the witness: one chunk per text. -/
def chW : String → List String := fun s => [s]

/-- Concrete fingerprint for the witness: the text itself. -/
def hsW : String → String := fun s => s

/-- Concrete two-payload batch for the witness. -/
def c5ps : List Payload :=
  [⟨1, "octo", "widget", "octo/widget", "u1", some "a widget", some "ts", some "[1]", none,
    some "hello world", "c1", "u1", "s1"⟩,
   ⟨2, "octo", "gadget", "octo/gadget", "u2", none, none, none, some "about gadget",
    none, "c2", "u2", "s2"⟩]

/-- Witness: the double sync of the concrete batch, first at clock 0 and
again at clock 1. -/
theorem C5_idempotent_reingestion_witness :
    (syncBatch chW hsW 3 jvTrue 1 (syncBatch chW hsW 3 jvTrue 0 emptyDB c5ps) c5ps).embeddings
      = (syncBatch chW hsW 3 jvTrue 0 emptyDB c5ps).embeddings ∧
    ∀ r ∈ (syncBatch chW hsW 3 jvTrue 1
        (syncBatch chW hsW 3 jvTrue 0 emptyDB c5ps) c5ps).repos,
      r.last_synced_at = 1 :=
  C5_idempotent_reingestion chW hsW 3 jvTrue 0 1 c5ps (by decide) (by decide)
    (fun p hp t ht => rfl) (by decide)
